import Mathlib

/-!
# speccheck: checking recorded round trips against method schemas

A shallow embedding of `cmd/speccheck/check.go` (`checkSpec`, `validate`,
`singleEscape`) and theorems about it.

The JSON-Schema engine (`jsonschema.CompileString`, `Schema.Validate`), the JSON
codec (`json.Marshal`, `json.MarshalIndent`, `json.Unmarshal`) and
`url.QueryEscape` are libraries used by the program; they are taken as the
fields of an `Engine` record and every theorem holds for every such record.

Writes through pointers are made explicit: `validate` returns the schema it
was given a pointer to as it stands after the call, and `checkSpec` returns
the registry as it stands after the run together with what was printed.
-/

set_option autoImplicit false

namespace Speccheck

/-! ## Data model -/

/-- The type `openrpc.JSONSchemaObject`: field `Schema` is the pointer-valued
`$schema` member (the dialect marker, `none` for a nil pointer); `body` stands
for all the other members, which check.go never reads or writes itself. -/
structure JSONSchemaObject (B : Type) where
  Schema : Option String
  body : B

/-- Modelled from the spec: the declaration of the parameter descriptor is not
in check.go. A declared parameter has a JSON-Schema document and a `required`
flag (spec §3 ParamSchema); check.go reads `cd.required` and
`method.params[i].schema`. -/
structure ParamSchema (B : Type) where
  schema : JSONSchemaObject B
  required : Bool

/-- Modelled from the spec: the declaration of the result descriptor is not in
check.go. A single JSON-Schema document (spec §3 ResultSchema); check.go reads
`method.result.schema`. -/
structure ResultSchema (B : Type) where
  schema : JSONSchemaObject B

/-- Modelled from the spec: the declaration of `methodSchema` is not in
check.go. Fields as in spec §3 MethodSchema and as read by check.go:
`method.name`, `method.params`, `method.result`. -/
structure methodSchema (B : Type) where
  name : String
  params : List (ParamSchema B)
  result : ResultSchema B

/-- Modelled from the spec: the error object of a response; check.go only
tests `rt.response.Error != nil`. -/
structure jsonError where
  code : Int
  message : String
  deriving DecidableEq

/-- Modelled from the spec: the response of a round trip,
`{result?: <raw JSON>, error?: <object>}` (spec §6). `Result` is a
`json.RawMessage`, `none` when nil; `Error` is a pointer, `none` when nil. -/
structure Response where
  Result : Option String
  Error : Option jsonError

/-- Modelled from the spec: the declaration of `roundTrip` is not in check.go.
Fields as in spec §3 RoundTrip and as read by check.go: `rt.method`,
`rt.name`, `rt.params` (raw encoded values), `rt.response`. -/
structure roundTrip where
  method : String
  name : String
  params : List String
  response : Response

/-- The registry `map[string]*methodSchema`: a key is absent when the lookup
gives `none`. Each key is taken to own its `methodSchema`. -/
abbrev Methods (B : Type) := String → Option (methodSchema B)

/-- The assignment through the pointer stored under `key`. -/
def Methods.set {B : Type} (methods : Methods B) (key : String) (m : methodSchema B) :
    Methods B :=
  fun k => if k = key then some m else methods k

/-- The type `*regexp.Regexp`; `checkSpec` takes one and never uses it. -/
structure Regexp where
  expr : String

/-! ## Library functions used by check.go -/

/-- The libraries check.go calls, over the schema body `B`, decoded values `V`
(Go `interface{}`), compiled schemas `C` and the library's error values `E`. -/
structure Engine (B V C E : Type) where
  /-- The function `json.Marshal` on a schema object; `none` is a non-nil error. -/
  Marshal : JSONSchemaObject B → Option String
  /-- The function `json.MarshalIndent(schema, prefix, indent)`. -/
  MarshalIndent : JSONSchemaObject B → String → String → Option String
  /-- The function `jsonschema.CompileString(url, text)`. -/
  CompileString : String → String → Except E C
  /-- The function `json.Unmarshal(val, &x)` for `x interface{}`: the decoded value,
  `none` on a decode error (then `x` keeps its zero value). -/
  Unmarshal : String → Option V
  /-- The nil `interface{}` value. -/
  nil : V
  /-- The method `(*jsonschema.Schema).Validate`; `none` is a nil error. -/
  Validate : C → V → Option E
  /-- The function `url.QueryEscape`. -/
  QueryEscape : String → String
  /-- The method `Error()` of a library error (what `%s` prints). -/
  errorText : E → String
  /-- The Go-syntax form of a library error (what `%#v` prints). -/
  goSyntax : E → String

/-- The `error` values `validate` returns: the one it builds itself with
`fmt.Errorf`, or one handed back by the schema library. -/
inductive GoError (E : Type) where
  | errorString (s : String)
  | lib (e : E)
  deriving DecidableEq

/-- What `%s` prints for an error returned by `validate`. -/
def GoError.Error {B V C E : Type} (eng : Engine B V C E) : GoError E → String
  | .errorString s => s
  | .lib e => eng.errorText e

/-- What `%#v` prints for an error returned by `validate`; the only
`*errors.errorString` that occurs has a text without characters to quote. -/
def GoError.GoString {B V C E : Type} (eng : Engine B V C E) : GoError E → String
  | .errorString s => "&errors.errorString\x7bs:\"" ++ s ++ "\"\x7d"
  | .lib e => eng.goSyntax e

/-- The function `strings.Contains` on character lists. -/
def containsChars (substr : List Char) : List Char → Bool
  | [] => substr.isEmpty
  | c :: cs => substr.isPrefixOf (c :: cs) || containsChars substr cs

/-- The function `strings.Contains(s, substr)`. -/
def stringsContains (s substr : String) : Bool :=
  containsChars substr.data s.data

/-! ## check.go -/

/-- The function `singleEscape` applies url.QueryEscape once. -/
def singleEscape {B V C E : Type} (eng : Engine B V C E) (s : String) : String :=
  eng.QueryEscape s

/-- The draft `validate` writes into the schema. -/
def draft : String := "http://json-schema.org/draft-07/schema"

/-- The function `validate(schema, val, url)`. The first component is `*schema` after
the call (its `$schema` member has been overwritten), the second the
returned error. -/
def validate {B V C E : Type} (eng : Engine B V C E) (schema : JSONSchemaObject B)
    (val : String) (url : String) : JSONSchemaObject B × Option (GoError E) :=
  let schema : JSONSchemaObject B := { schema with Schema := some draft }
  match eng.Marshal schema with
  | none => (schema, some (.errorString "unable to marshal schema to json"))
  | some b =>
    match eng.CompileString url b with
    | .error err => (schema, some (.lib err))
    | .ok s =>
      let x : V := (eng.Unmarshal val).getD eng.nil
      match eng.Validate s x with
      | some err => (schema, some (.lib err))
      | none => (schema, none)

/-- The errors `checkSpec` returns, one constructor for each `fmt.Errorf` in
it, carrying the arguments of the format. `url` is `some urlStr` at the
`generateUrls` variant of the format and `none` at the other. -/
inductive CheckError (E : Type) where
  | undefinedMethod (method : String)
  | tooManyParameters (name : String)
  | missingRequiredParameter (method : String) (i : Nat)
  | parameterValidation (name : String) (err : GoError E) (url : Option String)
  | resultValidation (name : String) (err : GoError E) (url : Option String)
  deriving DecidableEq

/-- The message of an error of `checkSpec`: the format of its `fmt.Errorf`. -/
def CheckError.Error {B V C E : Type} (eng : Engine B V C E) : CheckError E → String
  | .undefinedMethod method => "undefined method: " ++ method
  | .tooManyParameters name => name ++ ": too many parameters"
  | .missingRequiredParameter method i =>
    "missing required parameter " ++ method ++ ".param[" ++ toString i ++ "]"
  | .parameterValidation name err none =>
    "unable to validate parameter in " ++ name ++ ": " ++ err.Error eng
  | .parameterValidation name err (some urlStr) =>
    "unable to validate parameter in " ++ name ++ ": " ++ err.Error eng ++ "\nURL: " ++ urlStr
  | .resultValidation name err none =>
    "invalid result " ++ name ++ "\n" ++ err.GoString eng
  | .resultValidation name err (some urlStr) =>
    "invalid result " ++ name ++ "\n" ++ err.GoString eng ++ "\nURL: " ++ urlStr

/-- The debug URL both failure branches of `checkSpec` build: `schema` is the
schema object as it stands after `validate`, `data` the raw value. -/
def urlStr {B V C E : Type} (eng : Engine B V C E) (schema : JSONSchemaObject B)
    (data : String) : String :=
  let schemaStr := (eng.MarshalIndent schema "" "    ").getD ""
  let dataStr := data
  "http://localhost:5173/#schema=" ++ singleEscape eng schemaStr ++ "&data=" ++
    singleEscape eng dataStr

/-- The loop `for i, cd := range method.params` of `checkSpec`, from index `i`
on, over the declared parameters from that index. Gives those parameters
after the loop and the error it returned, if any. -/
def paramLoop {B V C E : Type} (eng : Engine B V C E) (rt : roundTrip) (generateUrls : Bool) :
    Nat → List (ParamSchema B) → List (ParamSchema B) × Option (CheckError E)
  | _, [] => ([], none)
  | i, cd :: cds =>
    if h : rt.params.length ≤ i then
      if !cd.required then
        -- skip missing optional values
        let r := paramLoop eng rt generateUrls (i + 1) cds
        (cd :: r.1, r.2)
      else
        (cd :: cds, some (.missingRequiredParameter rt.method i))
    else
      let v := validate eng cd.schema (rt.params.get ⟨i, by omega⟩)
        (rt.method ++ ".param[" ++ toString i ++ "]")
      let cd1 : ParamSchema B := { cd with schema := v.1 }
      match v.2 with
      | some err =>
        if generateUrls then
          (cd1 :: cds, some (.parameterValidation rt.name err
            (some (urlStr eng cd1.schema (rt.params.get ⟨i, by omega⟩)))))
        else
          (cd1 :: cds, some (.parameterValidation rt.name err none))
      | none =>
        let r := paramLoop eng rt generateUrls (i + 1) cds
        (cd1 :: r.1, r.2)

/-- The result of a run of `checkSpec`: the registry after the run, the lines
written with `fmt.Println`, and the returned error (`none` is nil). -/
structure Run (B E : Type) where
  methods : Methods B
  stdout : List String
  err : Option (CheckError E)

/-- The function `checkSpec(methods, rts, re, generateUrls)`. -/
def checkSpec {B V C E : Type} (eng : Engine B V C E) (methods : Methods B) :
    List roundTrip → Regexp → Bool → Run B E
  | [], _, _ => ⟨methods, ["all passing."], none⟩
  | rt :: rts, re, generateUrls =>
    match methods rt.method with
    | none => ⟨methods, [], some (.undefinedMethod rt.method)⟩
    | some method =>
      -- skip validator of test if name includes "invalid"
      if stringsContains rt.name "invalid" then
        checkSpec eng methods rts re generateUrls
      else if method.params.length < rt.params.length then
        ⟨methods, [], some (.tooManyParameters method.name)⟩
      else
        let p := paramLoop eng rt generateUrls 0 method.params
        let method1 : methodSchema B := { method with params := p.1 }
        match p.2 with
        | some err => ⟨methods.set rt.method method1, [], some err⟩
        | none =>
          if rt.response.Result.isNone && rt.response.Error.isSome then
            -- skip validation of errors
            checkSpec eng (methods.set rt.method method1) rts re generateUrls
          else
            let val := rt.response.Result.getD ""
            let v := validate eng method1.result.schema val (rt.method ++ ".result")
            let method2 : methodSchema B := { method1 with result := { schema := v.1 } }
            match v.2 with
            | some err =>
              let buf := (eng.Marshal method2.result.schema).getD ""
              let out := [buf, val, ""]
              if generateUrls then
                ⟨methods.set rt.method method2, out,
                  some (.resultValidation rt.name err
                    (some (urlStr eng method2.result.schema val)))⟩
              else
                ⟨methods.set rt.method method2, out, some (.resultValidation rt.name err none)⟩
            | none => checkSpec eng (methods.set rt.method method2) rts re generateUrls

/-! ## Normal forms: schemas up to the dialect marker -/

/-- The schema with its `$schema` member set to the draft. -/
def forceDraft {B : Type} (s : JSONSchemaObject B) : JSONSchemaObject B :=
  { s with Schema := some draft }

/-- A declared parameter with the draft written into its schema. -/
def ParamSchema.norm {B : Type} (cd : ParamSchema B) : ParamSchema B :=
  { cd with schema := forceDraft cd.schema }

/-- A method with the draft written into all its schemas. -/
def methodSchema.norm {B : Type} (m : methodSchema B) : methodSchema B :=
  { m with params := m.params.map ParamSchema.norm, result := ⟨forceDraft m.result.schema⟩ }

/-- A registry with the draft written into all its schemas. -/
def Methods.norm {B : Type} (methods : Methods B) : Methods B :=
  fun k => (methods k).map methodSchema.norm

/-- The method as the parameter loop of round trip `rt` leaves it. -/
def afterParams {B V C E : Type} (eng : Engine B V C E) (rt : roundTrip) (g : Bool)
    (method : methodSchema B) : methodSchema B :=
  { method with params := (paramLoop eng rt g 0 method.params).1 }

/-- The method as the parameter loop and the validation of the result of round
trip `rt` leave it. -/
def afterResult {B V C E : Type} (eng : Engine B V C E) (rt : roundTrip) (g : Bool)
    (method : methodSchema B) : methodSchema B :=
  { afterParams eng rt g method with result := { schema := forceDraft method.result.schema } }

/-! ## The specification's words -/

/-- A round trip passes, in the words of the specification: its method
resolves in the registry and either its name contains "invalid" or all of:
the supplied parameter count is at most the declared count, every supplied
value at index `i` validates against the declared schema at index `i`, every
declared parameter at an index beyond the supplied count is not required, and
either the result is absent and the error present or the result validates
against the result schema of the method. -/
def Passes {B V C E : Type} (eng : Engine B V C E) (methods : Methods B) (rt : roundTrip) :
    Prop :=
  ∃ method, methods rt.method = some method ∧
    (stringsContains rt.name "invalid" = true ∨
      (rt.params.length ≤ method.params.length ∧
        (∀ (i : Nat) (v : String) (cd : ParamSchema B), rt.params[i]? = some v →
          method.params[i]? = some cd →
          (validate eng cd.schema v (rt.method ++ ".param[" ++ toString i ++ "]")).2 = none) ∧
        (∀ (i : Nat) (cd : ParamSchema B), rt.params.length ≤ i →
          method.params[i]? = some cd → cd.required = false) ∧
        ((rt.response.Result = none ∧ rt.response.Error ≠ none) ∨
          (validate eng method.result.schema (rt.response.Result.getD "")
            (rt.method ++ ".result")).2 = none)))

/-- The error without its debug URL. -/
def CheckError.dropUrl {E : Type} : CheckError E → CheckError E
  | .parameterValidation name err _ => .parameterValidation name err none
  | .resultValidation name err _ => .resultValidation name err none
  | e => e

/-! ## An example engine and example data -/

/-- The schema bodies of the examples: the JSON type a value must have. -/
inductive JType where
  | integer
  | string
  | boolean
  deriving DecidableEq

/-- The decoded values of the examples. -/
inductive JValue where
  | null
  | number (n : Nat)
  | text (s : List Char)
  | bool (b : Bool)
  deriving DecidableEq

/-- The name of a JSON type. -/
def JType.name : JType → String
  | .integer => "integer"
  | .string => "string"
  | .boolean => "boolean"

/-- The example decoder: the literals `null`, `true`, `false`, a text between
double quotes, or a run of digits; anything else is a decode error. -/
def decodeChars : List Char → Option JValue
  | ['n', 'u', 'l', 'l'] => some .null
  | ['t', 'r', 'u', 'e'] => some (.bool true)
  | ['f', 'a', 'l', 's', 'e'] => some (.bool false)
  | '"' :: cs => if cs.getLast? = some '"' then some (.text cs.dropLast) else none
  | c :: cs =>
    if (c :: cs).all Char.isDigit then
      some (.number ((c :: cs).foldl (fun n d => 10 * n + (d.toNat - 48)) 0))
    else none
  | [] => none

/-- The example compiler: reads the type back from the schema text. -/
def compileChars (t : List Char) : Option JType :=
  if " type=integer".data.isSuffixOf t then some .integer
  else if " type=string".data.isSuffixOf t then some .string
  else if " type=boolean".data.isSuffixOf t then some .boolean
  else none

/-- Whether a decoded value has a JSON type. -/
def JType.accepts : JType → JValue → Bool
  | .integer, .number _ => true
  | .string, .text _ => true
  | .boolean, .bool _ => true
  | _, _ => false

/-- The example schema text: the dialect marker, then the type. -/
def schemaText (s : JSONSchemaObject JType) : String :=
  "$schema=" ++ s.Schema.getD "" ++ " type=" ++ s.body.name

/-- A hexadecimal digit, upper case. -/
def hexDigit (n : Nat) : Char :=
  if n < 10 then Char.ofNat (48 + n) else Char.ofNat (55 + n)

/-- The escape of one character of a query string: letters, digits and
`-_.~` stay, a blank becomes `+`, every other byte of the UTF-8 form becomes
`%XX`. -/
def escapeChar (c : Char) : List Char :=
  if c.isAlphanum || c = '-' || c = '_' || c = '.' || c = '~' then [c]
  else if c = ' ' then ['+']
  else (String.utf8EncodeChar c).flatMap
    (fun b => ['%', hexDigit (b.toNat / 16), hexDigit (b.toNat % 16)])

/-- The example engine: schemas are JSON types, a compiled schema keeps the
context it was compiled under, and errors are texts. -/
def exampleEngine : Engine JType JValue (String × JType) String where
  Marshal s := some (schemaText s)
  MarshalIndent s _ _ := some (schemaText s)
  CompileString url t :=
    match compileChars t.data with
    | some ty => .ok (url, ty)
    | none => .error ("cannot compile " ++ url)
  Unmarshal val := decodeChars val.data
  nil := .null
  Validate s x := if s.2.accepts x then none else some (s.1 ++ ": expected " ++ s.2.name)
  QueryEscape s := String.mk (s.data.flatMap escapeChar)
  errorText e := e
  goSyntax e := e

/-- A schema of the examples, without a dialect marker. -/
def schemaOf (ty : JType) : JSONSchemaObject JType := ⟨none, ty⟩

/-- The method `sum`: two required integer parameters, an integer result. -/
def sumMethod : methodSchema JType :=
  ⟨"sum", [⟨schemaOf .integer, true⟩, ⟨schemaOf .integer, true⟩], ⟨schemaOf .integer⟩⟩

/-- The method `greet`: a required string parameter, an optional boolean
parameter, a string result. -/
def greetMethod : methodSchema JType :=
  ⟨"greet", [⟨schemaOf .string, true⟩, ⟨schemaOf .boolean, false⟩], ⟨schemaOf .string⟩⟩

/-- The method `mix`: a required integer parameter, an optional boolean
parameter, a required string parameter, an integer result. -/
def mixMethod : methodSchema JType :=
  ⟨"mix", [⟨schemaOf .integer, true⟩, ⟨schemaOf .boolean, false⟩, ⟨schemaOf .string, true⟩],
    ⟨schemaOf .integer⟩⟩

/-- The example registry: `sum`, `greet` and `mix`. -/
def exampleMethods : Methods JType := fun k =>
  if k = "sum" then some sumMethod
  else if k = "greet" then some greetMethod
  else if k = "mix" then some mixMethod
  else none

/-- The regular expression handed to the example runs. -/
def exampleRe : Regexp := ⟨".*"⟩

/-- Scenario A: `sum` with `[1, 2]` and result `3`. -/
def sumOk : roundTrip := ⟨"sum", "sum-ok", ["1", "2"], ⟨some "3", none⟩⟩

/-- Scenario B: `sum` with `[1, "two"]`. -/
def sumBad : roundTrip := ⟨"sum", "sum-bad", ["1", "\"two\""], ⟨some "3", none⟩⟩

/-- Scenario C: `greet` with `["hi"]` only. -/
def greetShort : roundTrip := ⟨"greet", "greet-short", ["\"hi\""], ⟨some "\"hello\"", none⟩⟩

/-- Scenario D: a method that is not in the registry, under a name that
contains "invalid". -/
def unknownCall : roundTrip := ⟨"nonexistent", "unknown-invalid", ["\"x\""], ⟨none, none⟩⟩

/-- Scenario E: a round trip named `test-invalid-case` with a value that violates
its schema. -/
def invalidCase : roundTrip := ⟨"sum", "test-invalid-case", ["\"two\""], ⟨some "3", none⟩⟩

/-- A round trip of `sum` whose result violates the result schema. -/
def sumBadResult : roundTrip := ⟨"sum", "sum-bad-result", ["1", "2"], ⟨some "true", none⟩⟩

/-- A round trip of `sum` with three values, under a name that contains
"invalid". -/
def invalidExtra : roundTrip := ⟨"sum", "sum-invalid-extra", ["1", "2", "3"], ⟨some "6", none⟩⟩

/-- A round trip of `sum` with three values. -/
def sumExtra : roundTrip := ⟨"sum", "sum-extra", ["1", "2", "3"], ⟨some "6", none⟩⟩

/-- A round trip of `mix` with its first value only. -/
def mixShort : roundTrip := ⟨"mix", "mix-short", ["1"], ⟨some "true", none⟩⟩

/-- A round trip of `sum` answered with an error and no result. -/
def sumError : roundTrip := ⟨"sum", "sum-error", ["1", "2"], ⟨none, some ⟨-32000, "boom"⟩⟩⟩

/-- A round trip of `mix` with all three values. -/
def mixFull : roundTrip := ⟨"mix", "mix-full", ["1", "true", "\"s\""], ⟨some "7", none⟩⟩

/-- The round trip `mixFull` with its first and last values swapped. -/
def mixSwapped : roundTrip := ⟨"mix", "mix-swapped", ["\"s\"", "true", "1"], ⟨some "7", none⟩⟩

/-- The shape of an error returned with the debug flag on: a validation error
carries the URL built from some schema and value, and its message is the
message without the URL followed by "\nURL: " and the URL; any other error
carries no URL. -/
def CheckError.FlagOn {B V C E : Type} (eng : Engine B V C E) : CheckError E → Prop
  | .parameterValidation name err u =>
    ∃ s v, u = some (urlStr eng s v) ∧
      (CheckError.parameterValidation name err u).Error eng =
        (CheckError.parameterValidation name err none).Error eng ++ "\nURL: " ++ urlStr eng s v
  | .resultValidation name err u =>
    ∃ s v, u = some (urlStr eng s v) ∧
      (CheckError.resultValidation name err u).Error eng =
        (CheckError.resultValidation name err none).Error eng ++ "\nURL: " ++ urlStr eng s v
  | e => e.dropUrl = e

/-! ## Further words of the specification -/

/-- The parameters of a round trip all pass against a method: the supplied
count is at most the declared count, every supplied value validates against
the declared schema at its index, and every declared parameter without a
supplied value is optional. -/
def ParamsPass {B V C E : Type} (eng : Engine B V C E) (method : methodSchema B)
    (rt : roundTrip) : Prop :=
  rt.params.length ≤ method.params.length ∧
    (∀ (i : Nat) (v : String) (cd : ParamSchema B), rt.params[i]? = some v →
      method.params[i]? = some cd →
      (validate eng cd.schema v (rt.method ++ ".param[" ++ toString i ++ "]")).2 = none) ∧
    (∀ (i : Nat) (cd : ParamSchema B), rt.params.length ≤ i →
      method.params[i]? = some cd → cd.required = false)

/-- The declared parameter `cd` at index `k` passes for the round trip: the
value supplied at that index validates against its schema, or no value is
supplied there and it is optional. -/
def IndexPasses {B V C E : Type} (eng : Engine B V C E) (rt : roundTrip) (k : Nat)
    (cd : ParamSchema B) : Prop :=
  match rt.params[k]? with
  | some w =>
    (validate eng cd.schema w (rt.method ++ ".param[" ++ toString k ++ "]")).2 = none
  | none => cd.required = false

/-- The declared parameter `cd` at index `i` fails for the round trip with the
error `e`: no value is supplied there, it is required and `e` is the missing
required parameter error for `i`; or the value supplied there does not
validate against its schema and `e` is the parameter validation error with
the error of that call (and, with the flag, the URL of that schema and
value). -/
def IndexFails {B V C E : Type} (eng : Engine B V C E) (rt : roundTrip) (generateUrls : Bool)
    (i : Nat) (cd : ParamSchema B) (e : CheckError E) : Prop :=
  (rt.params[i]? = none ∧ cd.required = true ∧
      e = .missingRequiredParameter rt.method i) ∨
    ∃ v err, rt.params[i]? = some v ∧
      (validate eng cd.schema v (rt.method ++ ".param[" ++ toString i ++ "]")).2 = some err ∧
      e = .parameterValidation rt.name err
        (if generateUrls then
          some (urlStr eng
            (validate eng cd.schema v (rt.method ++ ".param[" ++ toString i ++ "]")).1 v)
        else none)

/-- A schema object as a run may leave it: as it was, or with the draft written
into its `$schema` member. -/
def SchemaKept {B : Type} (s s1 : JSONSchemaObject B) : Prop :=
  s1 = s ∨ s1 = forceDraft s

/-- A declared parameter as a run may leave it. -/
def ParamKept {B : Type} (cd cd1 : ParamSchema B) : Prop :=
  cd1.required = cd.required ∧ SchemaKept cd.schema cd1.schema

/-- A method as a run may leave it. -/
def MethodKept {B : Type} (m m1 : methodSchema B) : Prop :=
  m1.name = m.name ∧ List.Forall₂ ParamKept m.params m1.params ∧
    SchemaKept m.result.schema m1.result.schema

/-- A registry as a run may leave it. -/
def RegistryKept {B : Type} (methods methods1 : Methods B) : Prop :=
  ∀ k, (methods k = none ∧ methods1 k = none) ∨
    ∃ m m1, methods k = some m ∧ methods1 k = some m1 ∧ MethodKept m m1

/-! ## Further example data -/

/-- An integer schema that carries the marker of another dialect. -/
def draft04Integer : JSONSchemaObject JType :=
  ⟨some "http://json-schema.org/draft-04/schema#", .integer⟩

/-- The example engine with a compiler that rejects every document and hands
it back as the error, so that the document shows in the result. -/
def echoEngine : Engine JType JValue (String × JType) String :=
  { exampleEngine with CompileString := fun _ t => .error t }

/-- A round trip of `sum` whose value at index 0 violates its schema, which
lacks the required parameter at index 1, and whose result violates the result
schema. -/
def sumWorst : roundTrip := ⟨"sum", "sum-worst", ["\"x\""], ⟨some "true", none⟩⟩

/-- The example engine with a codec that cannot marshal a string schema. -/
def pickyEngine : Engine JType JValue (String × JType) String :=
  { exampleEngine with
    Marshal := fun s => if s.body = JType.string then none else some (schemaText s) }

/-- A round trip of `mix` named `case`, with all three values. -/
def caseMix : roundTrip := ⟨"mix", "case", ["1", "true", "\"s\""], ⟨some "7", none⟩⟩

/-- A round trip of `greet` named `case`. -/
def caseGreet : roundTrip := ⟨"greet", "case", ["\"hi\""], ⟨some "\"hello\"", none⟩⟩

/-- A round trip of `sum` with neither a result nor an error. -/
def sumSilent : roundTrip := ⟨"sum", "sum-silent", ["1", "2"], ⟨none, none⟩⟩

/-- A round trip of `sum` with both a result and an error. -/
def sumBoth : roundTrip := ⟨"sum", "sum-both", ["1", "2"], ⟨some "true", some ⟨1, "e"⟩⟩⟩

/-- A registry whose method `old` has schemas marked with another dialect. -/
def oldMethods : Methods JType := fun k =>
  if k = "old" then some ⟨"old", [⟨draft04Integer, true⟩], ⟨draft04Integer⟩⟩ else none

/-- A round trip of `old` whose value violates the schema. -/
def oldBad : roundTrip := ⟨"old", "old-bad", ["true"], ⟨some "1", none⟩⟩

/-! ## Lemmas -/

section Lemmas

variable {B V C E : Type}

theorem forceDraft_idem (s : JSONSchemaObject B) : forceDraft (forceDraft s) = forceDraft s := rfl

theorem validate_fst (eng : Engine B V C E) (s : JSONSchemaObject B) (v u : String) :
    (validate eng s v u).1 = forceDraft s := by
  unfold validate
  simp only []
  split
  · rfl
  · split
    · rfl
    · split <;> rfl

theorem validate_snd_forceDraft (eng : Engine B V C E) (s : JSONSchemaObject B) (v u : String) :
    (validate eng (forceDraft s) v u).2 = (validate eng s v u).2 := rfl

theorem validate_snd_congr (eng : Engine B V C E) {s t : JSONSchemaObject B} (v u : String)
    (h : forceDraft s = forceDraft t) : (validate eng s v u).2 = (validate eng t v u).2 := by
  rw [← validate_snd_forceDraft eng s, ← validate_snd_forceDraft eng t, h]

theorem paramNorm_idem (cd : ParamSchema B) : cd.norm.norm = cd.norm := rfl

theorem paramNorm_required (cd : ParamSchema B) : cd.norm.required = cd.required := rfl

theorem methodNorm_idem (m : methodSchema B) : m.norm.norm = m.norm := by
  simp [methodSchema.norm, forceDraft, List.map_map, Function.comp_def, ParamSchema.norm]

theorem methodsNorm_idem (methods : Methods B) : methods.norm.norm = methods.norm := by
  funext k
  simp only [Methods.norm]
  cases methods k <;> simp [methodNorm_idem]

theorem methodsNorm_set (methods : Methods B) (key : String) (m : methodSchema B) :
    (methods.set key m).norm = methods.norm.set key m.norm := by
  funext k
  simp only [Methods.norm, Methods.set]
  split <;> rfl

theorem methodsNorm_set_self {methods : Methods B} {key : String} {m0 m : methodSchema B}
    (h0 : methods key = some m0) (h : m.norm = m0.norm) :
    (methods.set key m).norm = methods.norm := by
  funext k
  simp only [Methods.norm, Methods.set]
  split
  · next hk => subst hk; simp [h0, h]
  · rfl

/-- The parameter loop leaves every declared parameter as it was, up to the
dialect marker. -/
theorem paramLoop_fst_norm (eng : Engine B V C E) (rt : roundTrip) (g : Bool)
    (cds : List (ParamSchema B)) (i : Nat) :
    (paramLoop eng rt g i cds).1.map ParamSchema.norm = cds.map ParamSchema.norm := by
  induction cds generalizing i with
  | nil => rfl
  | cons cd cds ih =>
    unfold paramLoop
    split
    · split
      · simp [ih]
      · rfl
    · simp only []
      split
      · split <;> simp [ParamSchema.norm, validate_fst, forceDraft]
      · simp [ih, ParamSchema.norm, validate_fst, forceDraft]

/-- The error of the parameter loop depends on the declared parameters only
up to the dialect marker. -/
theorem paramLoop_snd_norm (eng : Engine B V C E) (rt : roundTrip) (g : Bool)
    (cds : List (ParamSchema B)) (i : Nat) :
    (paramLoop eng rt g i (cds.map ParamSchema.norm)).2 = (paramLoop eng rt g i cds).2 := by
  induction cds generalizing i with
  | nil => rfl
  | cons cd cds ih =>
    simp only [List.map_cons]
    unfold paramLoop
    by_cases h : rt.params.length ≤ i
    · simp only [h, dite_true, paramNorm_required]
      split
      · simp [ih]
      · rfl
    · simp only [h, dite_false]
      have hv : (validate eng cd.norm.schema (rt.params.get ⟨i, by omega⟩)
          (rt.method ++ ".param[" ++ toString i ++ "]")).2 =
          (validate eng cd.schema (rt.params.get ⟨i, by omega⟩)
          (rt.method ++ ".param[" ++ toString i ++ "]")).2 := rfl
      rw [hv]
      cases (validate eng cd.schema (rt.params.get ⟨i, by omega⟩)
          (rt.method ++ ".param[" ++ toString i ++ "]")).2 with
      | some err =>
        simp only []
        cases g <;> simp [validate_fst, ParamSchema.norm, forceDraft]
      | none => simp [ih]

theorem paramLoop_snd_congr (eng : Engine B V C E) (rt : roundTrip) (g : Bool)
    {cds cds1 : List (ParamSchema B)} (i : Nat)
    (h : cds.map ParamSchema.norm = cds1.map ParamSchema.norm) :
    (paramLoop eng rt g i cds).2 = (paramLoop eng rt g i cds1).2 := by
  rw [← paramLoop_snd_norm eng rt g cds, ← paramLoop_snd_norm eng rt g cds1, h]

theorem checkSpec_nil (eng : Engine B V C E) (methods : Methods B) (re : Regexp) (g : Bool) :
    checkSpec eng methods [] re g = ⟨methods, ["all passing."], none⟩ := by
  simp only [checkSpec]

theorem checkSpec_cons_none (eng : Engine B V C E) {methods : Methods B} {rt : roundTrip}
    (rts : List roundTrip) (re : Regexp) (g : Bool) (h : methods rt.method = none) :
    checkSpec eng methods (rt :: rts) re g =
      ⟨methods, [], some (.undefinedMethod rt.method)⟩ := by
  simp only [checkSpec, h]

theorem checkSpec_cons_some (eng : Engine B V C E) {methods : Methods B} {rt : roundTrip}
    {method : methodSchema B} (rts : List roundTrip) (re : Regexp) (g : Bool)
    (h : methods rt.method = some method) :
    checkSpec eng methods (rt :: rts) re g =
      if stringsContains rt.name "invalid" then checkSpec eng methods rts re g
      else if method.params.length < rt.params.length then
        ⟨methods, [], some (.tooManyParameters method.name)⟩
      else
        match (paramLoop eng rt g 0 method.params).2 with
        | some err => ⟨methods.set rt.method (afterParams eng rt g method), [], some err⟩
        | none =>
          if rt.response.Result.isNone && rt.response.Error.isSome then
            checkSpec eng (methods.set rt.method (afterParams eng rt g method)) rts re g
          else
            match (validate eng method.result.schema (rt.response.Result.getD "")
                (rt.method ++ ".result")).2 with
            | some err =>
              ⟨methods.set rt.method (afterResult eng rt g method),
                [(eng.Marshal (forceDraft method.result.schema)).getD "",
                  rt.response.Result.getD "", ""],
                some (.resultValidation rt.name err
                  (if g then some (urlStr eng (forceDraft method.result.schema)
                    (rt.response.Result.getD "")) else none))⟩
            | none =>
              checkSpec eng (methods.set rt.method (afterResult eng rt g method)) rts re g := by
  rw [checkSpec]
  simp only [h, validate_fst, afterParams, afterResult]
  split
  · rfl
  · split
    · rfl
    · split
      · rfl
      · split
        · rfl
        · split
          · cases g <;> simp
          · rfl

theorem afterParams_norm (eng : Engine B V C E) (rt : roundTrip) (g : Bool)
    (method : methodSchema B) : (afterParams eng rt g method).norm = method.norm := by
  simp [afterParams, methodSchema.norm, paramLoop_fst_norm]

theorem afterResult_norm (eng : Engine B V C E) (rt : roundTrip) (g : Bool)
    (method : methodSchema B) : (afterResult eng rt g method).norm = method.norm := by
  simp [afterResult, afterParams, methodSchema.norm, paramLoop_fst_norm, forceDraft]

/-- A run leaves the registry as it was, up to the dialect markers. -/
theorem checkSpec_methods_norm (eng : Engine B V C E) (methods : Methods B)
    (rts : List roundTrip) (re : Regexp) (g : Bool) :
    (checkSpec eng methods rts re g).methods.norm = methods.norm := by
  induction rts generalizing methods with
  | nil => rw [checkSpec_nil]
  | cons rt rts ih =>
    cases h : methods rt.method with
    | none => rw [checkSpec_cons_none eng rts re g h]
    | some method =>
      have hp := methodsNorm_set_self h (afterParams_norm eng rt g method)
      have hr := methodsNorm_set_self h (afterResult_norm eng rt g method)
      rw [checkSpec_cons_some eng rts re g h]
      split
      · exact ih methods
      · split
        · rfl
        · split
          · exact hp
          · split
            · rw [ih, hp]
            · split
              · exact hr
              · rw [ih, hr]

theorem methodNorm_eq {m m1 : methodSchema B} (h : m.norm = m1.norm) :
    m.name = m1.name ∧ m.params.map ParamSchema.norm = m1.params.map ParamSchema.norm ∧
      forceDraft m.result.schema = forceDraft m1.result.schema := by
  simp only [methodSchema.norm, methodSchema.mk.injEq, ResultSchema.mk.injEq] at h
  exact h

/-- The error of a run depends on the registry only up to the dialect
markers. -/
theorem checkSpec_err_congr (eng : Engine B V C E) {methods methods1 : Methods B}
    (rts : List roundTrip) (re : Regexp) (g : Bool) (h : methods.norm = methods1.norm) :
    (checkSpec eng methods rts re g).err = (checkSpec eng methods1 rts re g).err := by
  induction rts generalizing methods methods1 with
  | nil => simp only [checkSpec_nil]
  | cons rt rts ih =>
    have hk : (methods rt.method).map methodSchema.norm =
        (methods1 rt.method).map methodSchema.norm := congrFun h rt.method
    cases h0 : methods rt.method with
    | none =>
      rw [h0] at hk
      cases h1 : methods1 rt.method with
      | none => rw [checkSpec_cons_none eng rts re g h0, checkSpec_cons_none eng rts re g h1]
      | some m1 => rw [h1] at hk; simp at hk
    | some m =>
      rw [h0] at hk
      cases h1 : methods1 rt.method with
      | none => rw [h1] at hk; simp at hk
      | some m1 =>
        rw [h1] at hk
        simp only [Option.map_some', Option.some.injEq] at hk
        obtain ⟨hname, hparams, hres⟩ := methodNorm_eq hk
        have hlen : m.params.length = m1.params.length := by
          have := congrArg List.length hparams
          simpa using this
        have hp : (methods.set rt.method (afterParams eng rt g m)).norm =
            (methods1.set rt.method (afterParams eng rt g m1)).norm := by
          rw [methodsNorm_set_self h0 (afterParams_norm eng rt g m),
            methodsNorm_set_self h1 (afterParams_norm eng rt g m1), h]
        have hr : (methods.set rt.method (afterResult eng rt g m)).norm =
            (methods1.set rt.method (afterResult eng rt g m1)).norm := by
          rw [methodsNorm_set_self h0 (afterResult_norm eng rt g m),
            methodsNorm_set_self h1 (afterResult_norm eng rt g m1), h]
        rw [checkSpec_cons_some eng rts re g h0, checkSpec_cons_some eng rts re g h1,
          paramLoop_snd_congr eng rt g 0 hparams,
          validate_snd_congr eng (rt.response.Result.getD "") (rt.method ++ ".result") hres,
          hlen, hname, hres]
        split
        · exact ih h
        · split
          · rfl
          · split
            · rfl
            · split
              · exact ih hp
              · split
                · rfl
                · exact ih hr

/-- Once a run has failed, round trips after the failing one change nothing. -/
theorem checkSpec_append_of_err (eng : Engine B V C E) (methods : Methods B)
    (rts suf : List roundTrip) (re : Regexp) (g : Bool)
    (h : (checkSpec eng methods rts re g).err ≠ none) :
    checkSpec eng methods (rts ++ suf) re g = checkSpec eng methods rts re g := by
  induction rts generalizing methods with
  | nil => simp [checkSpec_nil] at h
  | cons rt rts ih =>
    rw [List.cons_append]
    cases h0 : methods rt.method with
    | none => rw [checkSpec_cons_none eng _ re g h0, checkSpec_cons_none eng _ re g h0]
    | some m =>
      rw [checkSpec_cons_some eng _ re g h0] at h ⊢
      rw [checkSpec_cons_some eng rts re g h0]
      split
      · next hc => rw [if_pos hc] at h; exact ih _ h
      · next hc =>
        rw [if_neg hc] at h
        split
        · rfl
        · next hl =>
          rw [if_neg hl] at h
          split
          · rfl
          · next hpl =>
            simp only [hpl] at h
            split
            · next hres => rw [if_pos hres] at h; exact ih _ h
            · next hres =>
              rw [if_neg hres] at h
              split
              · rfl
              · next hv => simp only [hv] at h; exact ih _ h

/-- While a run has not failed, it goes on with the round trips that follow,
on the registry as it stands. -/
theorem checkSpec_append_of_ok (eng : Engine B V C E) (methods : Methods B)
    (rts suf : List roundTrip) (re : Regexp) (g : Bool)
    (h : (checkSpec eng methods rts re g).err = none) :
    checkSpec eng methods (rts ++ suf) re g =
      checkSpec eng (checkSpec eng methods rts re g).methods suf re g := by
  induction rts generalizing methods with
  | nil => simp [checkSpec_nil]
  | cons rt rts ih =>
    rw [List.cons_append]
    cases h0 : methods rt.method with
    | none => rw [checkSpec_cons_none eng _ re g h0] at h; simp at h
    | some m =>
      rw [checkSpec_cons_some eng _ re g h0] at h ⊢
      rw [checkSpec_cons_some eng rts re g h0]
      split
      · next hc => rw [if_pos hc] at h; exact ih _ h
      · next hc =>
        rw [if_neg hc] at h
        split
        · next hl => rw [if_pos hl] at h; simp at h
        · next hl =>
          rw [if_neg hl] at h
          split
          · next hpl => simp only [hpl] at h; simp at h
          · next hpl =>
            simp only [hpl] at h
            split
            · next hres => rw [if_pos hres] at h; exact ih _ h
            · next hres =>
              rw [if_neg hres] at h
              split
              · next hv => simp only [hv] at h; simp at h
              · next hv => simp only [hv] at h; exact ih _ h

/-- The error of a run is that of its first round trip, when that one fails on
its own, and otherwise that of the run on the remaining ones. -/
theorem checkSpec_err_cons (eng : Engine B V C E) (methods : Methods B) (rt : roundTrip)
    (rts : List roundTrip) (re : Regexp) (g : Bool) :
    (checkSpec eng methods (rt :: rts) re g).err =
      match (checkSpec eng methods [rt] re g).err with
      | some e => some e
      | none => (checkSpec eng methods rts re g).err := by
  have hsplit : rt :: rts = [rt] ++ rts := rfl
  cases h : (checkSpec eng methods [rt] re g).err with
  | some e =>
    have hne : (checkSpec eng methods [rt] re g).err ≠ none := by rw [h]; simp
    rw [hsplit, checkSpec_append_of_err eng methods [rt] rts re g hne, h]
  | none =>
    rw [hsplit, checkSpec_append_of_ok eng methods [rt] rts re g h]
    exact checkSpec_err_congr eng rts re g (checkSpec_methods_norm eng methods [rt] re g)

/-- A run does not fail exactly when none of its round trips fails on its
own. -/
theorem checkSpec_err_none_iff (eng : Engine B V C E) (methods : Methods B)
    (rts : List roundTrip) (re : Regexp) (g : Bool) :
    (checkSpec eng methods rts re g).err = none ↔
      ∀ rt ∈ rts, (checkSpec eng methods [rt] re g).err = none := by
  induction rts with
  | nil => simp [checkSpec_nil]
  | cons rt rts ih =>
    rw [checkSpec_err_cons]
    cases h : (checkSpec eng methods [rt] re g).err with
    | some e => simp [h]
    | none => simp [h, ih]

/-- Round trips that pass on their own, in front of a corpus, do not change
the error of the run. -/
theorem checkSpec_err_append_pass (eng : Engine B V C E) (methods : Methods B)
    (pre rts : List roundTrip) (re : Regexp) (g : Bool)
    (hpre : ∀ r ∈ pre, (checkSpec eng methods [r] re g).err = none) :
    (checkSpec eng methods (pre ++ rts) re g).err = (checkSpec eng methods rts re g).err := by
  have h := (checkSpec_err_none_iff eng methods pre re g).mpr hpre
  rw [checkSpec_append_of_ok eng methods pre rts re g h]
  exact checkSpec_err_congr eng rts re g (checkSpec_methods_norm eng methods pre re g)

/-- The run of a corpus whose round trip after the passing ones `pre` fails:
it is the run of that round trip on the registry as `pre` left it. -/
theorem checkSpec_run_append_pass (eng : Engine B V C E) (methods : Methods B)
    (pre rts : List roundTrip) (re : Regexp) (g : Bool)
    (hpre : ∀ r ∈ pre, (checkSpec eng methods [r] re g).err = none) :
    checkSpec eng methods (pre ++ rts) re g =
      checkSpec eng (checkSpec eng methods pre re g).methods rts re g :=
  checkSpec_append_of_ok eng methods pre rts re g
    ((checkSpec_err_none_iff eng methods pre re g).mpr hpre)

/-- The error of checking one round trip whose method resolves. -/
theorem checkSpec_single_err (eng : Engine B V C E) {methods : Methods B} {rt : roundTrip}
    {method : methodSchema B} (re : Regexp) (g : Bool) (h : methods rt.method = some method) :
    (checkSpec eng methods [rt] re g).err =
      if stringsContains rt.name "invalid" then none
      else if method.params.length < rt.params.length then
        some (.tooManyParameters method.name)
      else
        match (paramLoop eng rt g 0 method.params).2 with
        | some err => some err
        | none =>
          if rt.response.Result.isNone && rt.response.Error.isSome then none
          else
            match (validate eng method.result.schema (rt.response.Result.getD "")
                (rt.method ++ ".result")).2 with
            | some err =>
              some (.resultValidation rt.name err
                (if g then some (urlStr eng (forceDraft method.result.schema)
                  (rt.response.Result.getD "")) else none))
            | none => none := by
  rw [checkSpec_cons_some eng [] re g h]
  simp only [checkSpec_nil]
  split
  · rfl
  · split
    · rfl
    · split
      · rfl
      · split
        · rfl
        · split <;> rfl

theorem paramLoop_cons_missing (eng : Engine B V C E) (rt : roundTrip) (g : Bool) (i : Nat)
    (cd : ParamSchema B) (cds : List (ParamSchema B)) (h : rt.params.length ≤ i) :
    (paramLoop eng rt g i (cd :: cds)).2 =
      if cd.required then some (.missingRequiredParameter rt.method i)
      else (paramLoop eng rt g (i + 1) cds).2 := by
  rw [paramLoop]
  simp only [h, dite_true]
  cases cd.required <;> simp

theorem paramLoop_cons_supplied (eng : Engine B V C E) (rt : roundTrip) (g : Bool) (i : Nat)
    (cd : ParamSchema B) (cds : List (ParamSchema B)) (v : String) (h : rt.params[i]? = some v) :
    (paramLoop eng rt g i (cd :: cds)).2 =
      match (validate eng cd.schema v (rt.method ++ ".param[" ++ toString i ++ "]")).2 with
      | some err =>
        some (.parameterValidation rt.name err
          (if g then some (urlStr eng (forceDraft cd.schema) v) else none))
      | none => (paramLoop eng rt g (i + 1) cds).2 := by
  obtain ⟨hi, hv⟩ := List.getElem?_eq_some_iff.mp h
  have hget : rt.params.get ⟨i, hi⟩ = v := hv
  rw [paramLoop]
  have hn : ¬ rt.params.length ≤ i := by omega
  simp only [hn, dite_false, hget, validate_fst]
  split
  · cases g <;> simp
  · rfl

/-- Declared parameters that pass, in front of others, do not change the error
of the parameter loop. -/
theorem paramLoop_snd_append (eng : Engine B V C E) (rt : roundTrip) (g : Bool) (i : Nat)
    (pre rest : List (ParamSchema B)) (h : (paramLoop eng rt g i pre).2 = none) :
    (paramLoop eng rt g i (pre ++ rest)).2 = (paramLoop eng rt g (i + pre.length) rest).2 := by
  induction pre generalizing i with
  | nil => rfl
  | cons cd pre ih =>
    have hlen : i + (cd :: pre).length = i + 1 + pre.length := by simp; omega
    rw [List.cons_append, hlen]
    cases hv : rt.params[i]? with
    | none =>
      have hi : rt.params.length ≤ i := List.getElem?_eq_none_iff.mp hv
      rw [paramLoop_cons_missing eng rt g i cd _ hi] at h ⊢
      split
      · next hr => rw [if_pos hr] at h; simp at h
      · next hr => rw [if_neg hr] at h; exact ih (i + 1) h
    | some v =>
      rw [paramLoop_cons_supplied eng rt g i cd _ v hv] at h ⊢
      split
      · next hr => simp only [hr] at h; simp at h
      · next hr => simp only [hr] at h; exact ih (i + 1) h

/-- The parameter loop returns no error exactly when every supplied value
validates against the declared schema at its index and every declared
parameter without a supplied value is optional. -/
theorem paramLoop_snd_none_iff (eng : Engine B V C E) (rt : roundTrip) (g : Bool) (i : Nat)
    (cds : List (ParamSchema B)) :
    (paramLoop eng rt g i cds).2 = none ↔
      (∀ j v cd, rt.params[i + j]? = some v → cds[j]? = some cd →
        (validate eng cd.schema v (rt.method ++ ".param[" ++ toString (i + j) ++ "]")).2 = none) ∧
      (∀ j cd, rt.params.length ≤ i + j → cds[j]? = some cd → cd.required = false) := by
  induction cds generalizing i with
  | nil => simp [paramLoop]
  | cons cd cds ih =>
    have hsucc : ∀ j, i + 1 + j = i + (j + 1) := by intro j; omega
    cases hv : rt.params[i]? with
    | none =>
      have hi : rt.params.length ≤ i := List.getElem?_eq_none_iff.mp hv
      rw [paramLoop_cons_missing eng rt g i cd _ hi]
      constructor
      · intro h
        have hr : cd.required = false := by
          cases hreq : cd.required with
          | false => rfl
          | true => rw [hreq] at h; simp at h
        rw [hr] at h
        simp only [Bool.false_eq_true, if_false] at h
        obtain ⟨h1, h2⟩ := (ih (i + 1)).mp h
        refine ⟨?_, ?_⟩
        · intro j v cd1 hj hcd
          cases j with
          | zero => rw [Nat.add_zero, hv] at hj; simp at hj
          | succ j =>
            rw [← hsucc]
            exact h1 j v cd1 (by rw [hsucc]; exact hj) (by simpa using hcd)
        · intro j cd1 hj hcd
          cases j with
          | zero =>
            simp only [List.getElem?_cons_zero, Option.some.injEq] at hcd
            rw [← hcd]; exact hr
          | succ j => exact h2 j cd1 (by rw [hsucc]; exact hj) (by simpa using hcd)
      · rintro ⟨h1, h2⟩
        have hr : cd.required = false := h2 0 cd (by simpa using hi) (by simp)
        rw [hr]
        simp only [Bool.false_eq_true, if_false]
        refine (ih (i + 1)).mpr ⟨?_, ?_⟩
        · intro j v cd1 hj hcd
          rw [hsucc]
          exact h1 (j + 1) v cd1 (by rw [← hsucc]; exact hj) (by simpa using hcd)
        · intro j cd1 hj hcd
          exact h2 (j + 1) cd1 (by rw [← hsucc]; exact hj) (by simpa using hcd)
    | some v =>
      have hi : i < rt.params.length := (List.getElem?_eq_some_iff.mp hv).1
      rw [paramLoop_cons_supplied eng rt g i cd _ v hv]
      constructor
      · intro h
        have hval : (validate eng cd.schema v
            (rt.method ++ ".param[" ++ toString i ++ "]")).2 = none := by
          cases hx : (validate eng cd.schema v
            (rt.method ++ ".param[" ++ toString i ++ "]")).2 with
          | none => rfl
          | some err => simp only [hx] at h; simp at h
        simp only [hval] at h
        obtain ⟨h1, h2⟩ := (ih (i + 1)).mp h
        refine ⟨?_, ?_⟩
        · intro j w cd1 hj hcd
          cases j with
          | zero =>
            rw [Nat.add_zero, hv] at hj
            simp only [List.getElem?_cons_zero, Option.some.injEq] at hcd hj
            rw [← hcd, ← hj]; exact hval
          | succ j =>
            rw [← hsucc]
            exact h1 j w cd1 (by rw [hsucc]; exact hj) (by simpa using hcd)
        · intro j cd1 hj hcd
          cases j with
          | zero => simp at hj; omega
          | succ j => exact h2 j cd1 (by rw [hsucc]; exact hj) (by simpa using hcd)
      · rintro ⟨h1, h2⟩
        have hval := h1 0 v cd (by simpa using hv) (by simp)
        rw [Nat.add_zero] at hval
        simp only [hval]
        refine (ih (i + 1)).mpr ⟨?_, ?_⟩
        · intro j w cd1 hj hcd
          rw [hsucc]
          exact h1 (j + 1) w cd1 (by rw [← hsucc]; exact hj) (by simpa using hcd)
        · intro j cd1 hj hcd
          exact h2 (j + 1) cd1 (by rw [← hsucc]; exact hj) (by simpa using hcd)

end Lemmas

/-! ## Lemmas on single round trips -/

section Single

variable {B V C E : Type}

/-- Checking one round trip on its own gives no error exactly when it passes
in the words of the specification. -/
theorem single_err_none_iff_passes (eng : Engine B V C E) (methods : Methods B) (rt : roundTrip)
    (re : Regexp) (g : Bool) :
    (checkSpec eng methods [rt] re g).err = none ↔ Passes eng methods rt := by
  unfold Passes
  cases h : methods rt.method with
  | none => simp [checkSpec_cons_none eng [] re g h]
  | some method =>
    rw [checkSpec_single_err eng re g h]
    simp only [Option.some.injEq, exists_eq_left']
    cases hc : stringsContains rt.name "invalid" with
    | true => simp
    | false =>
      simp only [Bool.false_eq_true, if_false, false_or]
      by_cases hl : method.params.length < rt.params.length
      · rw [if_pos hl]
        constructor
        · intro hx; simp at hx
        · rintro ⟨hle, -⟩; omega
      · rw [if_neg hl]
        have hle : rt.params.length ≤ method.params.length := by omega
        have hloop := paramLoop_snd_none_iff eng rt g 0 method.params
        simp only [Nat.zero_add] at hloop
        cases hp : (paramLoop eng rt g 0 method.params).2 with
        | some err =>
          simp only []
          constructor
          · intro hx; simp at hx
          · rintro ⟨-, h1, h2, -⟩
            rw [hloop.mpr ⟨h1, h2⟩] at hp
            simp at hp
        | none =>
          obtain ⟨h1, h2⟩ := hloop.mp hp
          simp only []
          cases hR : rt.response.Result with
          | none =>
            cases hE : rt.response.Error with
            | none =>
              simp only [Option.isNone_none, Option.isSome_none, Bool.and_false,
                Bool.false_eq_true, if_false, ne_eq, not_true_eq_false, and_false, false_or]
              cases hv : (validate eng method.result.schema ((none : Option String).getD "")
                  (rt.method ++ ".result")).2 with
              | some err => simp
              | none => simp only [true_iff, and_true]; exact ⟨hle, h1, h2⟩
            | some e =>
              simp only [Option.isNone_none, Option.isSome_some, Bool.and_self, if_true,
                true_iff]
              exact ⟨hle, h1, h2, Or.inl ⟨trivial, by simp⟩⟩
          | some r =>
            simp only [Option.isNone_some, Bool.false_and, Bool.false_eq_true, if_false,
              false_and, false_or]
            cases hv : (validate eng method.result.schema ((some r).getD "")
                (rt.method ++ ".result")).2 with
            | some err => simp
            | none => simp only [true_iff]; exact ⟨hle, h1, h2, Or.inr trivial⟩

/-- A run keeps the keys of the registry. -/
theorem checkSpec_methods_isSome (eng : Engine B V C E) (methods : Methods B)
    (rts : List roundTrip) (re : Regexp) (g : Bool) (k : String) :
    ((checkSpec eng methods rts re g).methods k).isSome = (methods k).isSome := by
  have h := congrFun (checkSpec_methods_norm eng methods rts re g) k
  simp only [Methods.norm] at h
  cases h1 : (checkSpec eng methods rts re g).methods k <;> cases h2 : methods k <;>
    simp [h1, h2] at h ⊢

end Single
/-! ## Further lemmas -/

section More

variable {B V C E : Type}

/-- The model of `strings.Contains` decides the substring relation. -/
theorem containsChars_iff_isInfix (substr s : List Char) :
    containsChars substr s = true ↔ substr <:+: s := by
  induction s with
  | nil => simp [containsChars, List.isEmpty_iff]
  | cons c cs ih =>
    rw [containsChars, Bool.or_eq_true, ih, List.infix_cons_iff, List.isPrefixOf_iff_prefix]

theorem stringsContains_iff_isInfix (s substr : String) :
    stringsContains s substr = true ↔ substr.data <:+: s.data :=
  containsChars_iff_isInfix substr.data s.data

/-- A run keeps every method of the registry, up to the dialect markers. -/
theorem checkSpec_methods_lookup (eng : Engine B V C E) {methods : Methods B}
    (rts : List roundTrip) (re : Regexp) (g : Bool) {k : String} {m : methodSchema B}
    (h : methods k = some m) :
    ∃ m1, (checkSpec eng methods rts re g).methods k = some m1 ∧ m1.norm = m.norm := by
  have hn := congrFun (checkSpec_methods_norm eng methods rts re g) k
  simp only [Methods.norm, h, Option.map_some'] at hn
  cases h1 : (checkSpec eng methods rts re g).methods k with
  | none => rw [h1] at hn; simp at hn
  | some m1 =>
    rw [h1] at hn
    simp only [Option.map_some', Option.some.injEq] at hn
    exact ⟨m1, rfl, hn⟩

theorem checkSpec_methods_lookup_none (eng : Engine B V C E) {methods : Methods B}
    (rts : List roundTrip) (re : Regexp) (g : Bool) {k : String} (h : methods k = none) :
    (checkSpec eng methods rts re g).methods k = none := by
  have hs := checkSpec_methods_isSome eng methods rts re g k
  rw [h] at hs
  cases h1 : (checkSpec eng methods rts re g).methods k with
  | none => rfl
  | some m1 => rw [h1] at hs; simp at hs

/-- The error of the parameter loop over `pre ++ rest` is that over `pre`, when
there is one, and otherwise that over `rest` from the index after `pre`. -/
theorem paramLoop_snd_append_eq (eng : Engine B V C E) (rt : roundTrip) (g : Bool) (i : Nat)
    (pre rest : List (ParamSchema B)) :
    (paramLoop eng rt g i (pre ++ rest)).2 =
      match (paramLoop eng rt g i pre).2 with
      | some e => some e
      | none => (paramLoop eng rt g (i + pre.length) rest).2 := by
  cases h : (paramLoop eng rt g i pre).2 with
  | none => exact paramLoop_snd_append eng rt g i pre rest h
  | some e =>
    simp only []
    induction pre generalizing i with
    | nil => simp [paramLoop] at h
    | cons cd pre ih =>
      rw [List.cons_append]
      cases hv : rt.params[i]? with
      | none =>
        have hi : rt.params.length ≤ i := List.getElem?_eq_none_iff.mp hv
        rw [paramLoop_cons_missing eng rt g i cd _ hi] at h ⊢
        split
        · next hr => rw [if_pos hr] at h; exact h
        · next hr => rw [if_neg hr] at h; exact ih (i + 1) h
      | some v =>
        rw [paramLoop_cons_supplied eng rt g i cd _ v hv] at h ⊢
        split
        · next hr => simp only [hr] at h; exact h
        · next hr => simp only [hr] at h; exact ih (i + 1) h

/-- When the declared parameters below index `j` pass, the error of the
parameter loop is that of the loop from index `j` on. -/
theorem paramLoop_snd_at (eng : Engine B V C E) (rt : roundTrip) (g : Bool)
    (cds : List (ParamSchema B)) (j : Nat) (cdj : ParamSchema B) (hcd : cds[j]? = some cdj)
    (hpass : (paramLoop eng rt g 0 (cds.take j)).2 = none) :
    (paramLoop eng rt g 0 cds).2 = (paramLoop eng rt g j (cdj :: cds.drop (j + 1))).2 := by
  obtain ⟨hj, hget⟩ := List.getElem?_eq_some_iff.mp hcd
  have hsplit : cds = cds.take j ++ cdj :: cds.drop (j + 1) := by
    rw [← hget, ← List.drop_eq_getElem_cons hj, List.take_append_drop]
  have hlen : (cds.take j).length = j := by rw [List.length_take]; omega
  have h := paramLoop_snd_append eng rt g 0 (cds.take j) (cdj :: cds.drop (j + 1)) hpass
  rw [hlen, Nat.zero_add, ← hsplit] at h
  exact h

/-- The declared parameters below index `j` pass when the supplied values
below `j` validate and the missing ones below `j` are optional. -/
theorem paramLoop_take_pass (eng : Engine B V C E) (rt : roundTrip) (g : Bool)
    (cds : List (ParamSchema B)) (j : Nat)
    (hvals : ∀ (i : Nat) (v : String) (cd : ParamSchema B), i < j → rt.params[i]? = some v →
      cds[i]? = some cd →
      (validate eng cd.schema v (rt.method ++ ".param[" ++ toString i ++ "]")).2 = none)
    (hopt : ∀ (i : Nat) (cd : ParamSchema B), rt.params.length ≤ i → i < j →
      cds[i]? = some cd → cd.required = false) :
    (paramLoop eng rt g 0 (cds.take j)).2 = none := by
  rw [paramLoop_snd_none_iff]
  simp only [Nat.zero_add]
  refine ⟨?_, ?_⟩
  · intro i v cd hv hcd
    rw [List.getElem?_take] at hcd
    split at hcd
    · next hij => exact hvals i v cd hij hv hcd
    · simp at hcd
  · intro i cd hi hcd
    rw [List.getElem?_take] at hcd
    split at hcd
    · next hij => exact hopt i cd hi hij hcd
    · simp at hcd

/-- Without the flag the parameter loop returns the error it returns with the
flag, less the URL. -/
theorem paramLoop_snd_flag (eng : Engine B V C E) (rt : roundTrip) (i : Nat)
    (cds : List (ParamSchema B)) :
    (paramLoop eng rt false i cds).2 =
      ((paramLoop eng rt true i cds).2).map CheckError.dropUrl := by
  induction cds generalizing i with
  | nil => rfl
  | cons cd cds ih =>
    cases hv : rt.params[i]? with
    | none =>
      have hi : rt.params.length ≤ i := List.getElem?_eq_none_iff.mp hv
      rw [paramLoop_cons_missing eng rt false i cd _ hi,
        paramLoop_cons_missing eng rt true i cd _ hi]
      split
      · rfl
      · exact ih (i + 1)
    | some v =>
      rw [paramLoop_cons_supplied eng rt false i cd _ v hv,
        paramLoop_cons_supplied eng rt true i cd _ v hv]
      split
      · rfl
      · exact ih (i + 1)

/-- Without the flag a round trip on its own gives the error it gives with the
flag, less the URL. -/
theorem single_err_flag (eng : Engine B V C E) (methods : Methods B) (rt : roundTrip)
    (re : Regexp) :
    (checkSpec eng methods [rt] re false).err =
      ((checkSpec eng methods [rt] re true).err).map CheckError.dropUrl := by
  cases h : methods rt.method with
  | none => rw [checkSpec_cons_none eng [] re _ h, checkSpec_cons_none eng [] re _ h]; rfl
  | some method =>
    rw [checkSpec_single_err eng re false h, checkSpec_single_err eng re true h,
      paramLoop_snd_flag]
    split
    · rfl
    · split
      · rfl
      · cases (paramLoop eng rt true 0 method.params).2 with
        | some e => rfl
        | none =>
          simp only [Option.map_none']
          split
          · rfl
          · split <;> rfl

/-- A failing run fails at a round trip in front of which all pass on their
own, with the error of that round trip on its own. -/
theorem checkSpec_err_some_split (eng : Engine B V C E) (methods : Methods B)
    (rts : List roundTrip) (re : Regexp) (g : Bool) (e : CheckError E)
    (h : (checkSpec eng methods rts re g).err = some e) :
    ∃ pre rt suf, rts = pre ++ rt :: suf ∧
      (∀ r ∈ pre, (checkSpec eng methods [r] re g).err = none) ∧
      (checkSpec eng methods [rt] re g).err = some e := by
  induction rts with
  | nil => simp [checkSpec_nil] at h
  | cons rt rts ih =>
    rw [checkSpec_err_cons] at h
    cases h1 : (checkSpec eng methods [rt] re g).err with
    | some e1 =>
      simp only [h1, Option.some.injEq] at h
      exact ⟨[], rt, rts, rfl, by simp, by rw [← h, h1]⟩
    | none =>
      simp only [h1] at h
      obtain ⟨pre, r, suf, hsplit, hpre, hr⟩ := ih h
      refine ⟨rt :: pre, r, suf, by rw [hsplit]; rfl, ?_, hr⟩
      intro x hx
      rcases List.mem_cons.mp hx with hx | hx
      · rw [hx]; exact h1
      · exact hpre x hx

end More

section Steps

variable {B V C E : Type}

theorem methodsSet_self (methods : Methods B) (key : String) (m : methodSchema B) :
    (methods.set key m) key = some m := by
  simp [Methods.set]

/-- The run on a corpus whose first round trip is not skipped, has no more
values than declared parameters, and fails in the parameter loop. -/
theorem checkSpec_cons_param_err (eng : Engine B V C E) {methods : Methods B} {rt : roundTrip}
    {method : methodSchema B} (rts : List roundTrip) (re : Regexp) (g : Bool)
    {e : CheckError E} (hm : methods rt.method = some method)
    (hname : stringsContains rt.name "invalid" = false)
    (hlen : rt.params.length ≤ method.params.length)
    (hp : (paramLoop eng rt g 0 method.params).2 = some e) :
    checkSpec eng methods (rt :: rts) re g =
      ⟨methods.set rt.method (afterParams eng rt g method), [], some e⟩ := by
  have hl : ¬ method.params.length < rt.params.length := by omega
  rw [checkSpec_cons_some eng rts re g hm, hname, if_neg hl]
  simp [hp]

/-- The run on a corpus of passing round trips followed by one that is not
skipped, has no more values than declared parameters, and fails in the
parameter loop with `e`. -/
theorem checkSpec_append_param_err (eng : Engine B V C E) (methods : Methods B)
    (pre : List roundTrip) (rt : roundTrip) (suf : List roundTrip) (re : Regexp) (g : Bool)
    (method : methodSchema B) (e : CheckError E)
    (hpre : ∀ r ∈ pre, (checkSpec eng methods [r] re g).err = none)
    (hm : methods rt.method = some method)
    (hname : stringsContains rt.name "invalid" = false)
    (hlen : rt.params.length ≤ method.params.length)
    (hp : (paramLoop eng rt g 0 method.params).2 = some e) :
    ∃ m1, (checkSpec eng methods pre re g).methods rt.method = some m1 ∧
      checkSpec eng methods (pre ++ rt :: suf) re g =
        ⟨(checkSpec eng methods pre re g).methods.set rt.method (afterParams eng rt g m1), [],
          some e⟩ := by
  obtain ⟨m1, hm1, hn⟩ := checkSpec_methods_lookup eng pre re g hm
  obtain ⟨-, hparams, -⟩ := methodNorm_eq hn
  have hlen1 : m1.params.length = method.params.length := by
    have := congrArg List.length hparams
    simpa using this
  refine ⟨m1, hm1, ?_⟩
  rw [checkSpec_run_append_pass eng methods pre _ re g hpre]
  refine checkSpec_cons_param_err eng suf re g hm1 hname (by omega) ?_
  rw [paramLoop_snd_congr eng rt g 0 hparams, hp]

end Steps

section Flag

variable {B V C E : Type}

theorem paramLoop_flagOn (eng : Engine B V C E) (rt : roundTrip) (i : Nat)
    (cds : List (ParamSchema B)) (e : CheckError E)
    (h : (paramLoop eng rt true i cds).2 = some e) : e.FlagOn eng := by
  induction cds generalizing i with
  | nil => simp [paramLoop] at h
  | cons cd cds ih =>
    cases hv : rt.params[i]? with
    | none =>
      have hi : rt.params.length ≤ i := List.getElem?_eq_none_iff.mp hv
      rw [paramLoop_cons_missing eng rt true i cd _ hi] at h
      split at h
      · simp only [Option.some.injEq] at h
        rw [← h]; exact rfl
      · exact ih (i + 1) h
    | some v =>
      rw [paramLoop_cons_supplied eng rt true i cd _ v hv] at h
      split at h
      · simp only [if_true, Option.some.injEq] at h
        rw [← h]
        exact ⟨_, _, rfl, rfl⟩
      · exact ih (i + 1) h

theorem single_flagOn (eng : Engine B V C E) (methods : Methods B) (rt : roundTrip)
    (re : Regexp) (e : CheckError E) (h : (checkSpec eng methods [rt] re true).err = some e) :
    e.FlagOn eng := by
  cases hm : methods rt.method with
  | none =>
    rw [checkSpec_cons_none eng [] re _ hm] at h
    simp only [Option.some.injEq] at h
    rw [← h]; exact rfl
  | some method =>
    rw [checkSpec_single_err eng re true hm] at h
    split at h
    · simp at h
    · split at h
      · simp only [Option.some.injEq] at h
        rw [← h]; exact rfl
      · split at h
        · next e1 hp =>
          simp only [Option.some.injEq] at h
          rw [← h]; exact paramLoop_flagOn eng rt 0 method.params e1 hp
        · split at h
          · simp at h
          · split at h
            · simp only [if_true, Option.some.injEq] at h
              rw [← h]
              exact ⟨_, _, rfl, rfl⟩
            · simp at h

/-- Without the flag a run returns the error it returns with the flag, less
the URL. -/
theorem checkSpec_err_flag (eng : Engine B V C E) (methods : Methods B) (rts : List roundTrip)
    (re : Regexp) :
    (checkSpec eng methods rts re false).err =
      ((checkSpec eng methods rts re true).err).map CheckError.dropUrl := by
  induction rts with
  | nil => simp [checkSpec_nil]
  | cons rt rts ih =>
    rw [checkSpec_err_cons eng methods rt rts re false,
      checkSpec_err_cons eng methods rt rts re true, single_err_flag eng methods rt re]
    cases (checkSpec eng methods [rt] re true).err with
    | some e => rfl
    | none => exact ih

end Flag

section Result

variable {B V C E : Type}

/-- The parameters all pass exactly when there are not too many and the
parameter loop returns no error. -/
theorem paramsPass_iff (eng : Engine B V C E) (method : methodSchema B) (rt : roundTrip)
    (g : Bool) :
    ParamsPass eng method rt ↔
      rt.params.length ≤ method.params.length ∧
        (paramLoop eng rt g 0 method.params).2 = none := by
  have h := paramLoop_snd_none_iff eng rt g 0 method.params
  simp only [Nat.zero_add] at h
  unfold ParamsPass
  rw [h]

/-- A round trip that fails on its own, after round trips that pass on their
own, gives the error of the run. -/
theorem checkSpec_err_at (eng : Engine B V C E) (methods : Methods B) (pre : List roundTrip)
    (rt : roundTrip) (suf : List roundTrip) (re : Regexp) (g : Bool) (e : CheckError E)
    (hpre : ∀ r ∈ pre, (checkSpec eng methods [r] re g).err = none)
    (hrt : (checkSpec eng methods [rt] re g).err = some e) :
    (checkSpec eng methods (pre ++ rt :: suf) re g).err = some e := by
  rw [checkSpec_err_append_pass eng methods pre _ re g hpre, checkSpec_err_cons, hrt]

/-- The error of a round trip on its own, not skipped, whose parameters all
pass and whose response is not an error alone: that of the validation of the
result. -/
theorem single_err_result (eng : Engine B V C E) {methods : Methods B} {rt : roundTrip}
    {method : methodSchema B} (re : Regexp) (g : Bool)
    (hm : methods rt.method = some method)
    (hname : stringsContains rt.name "invalid" = false)
    (hpass : ParamsPass eng method rt)
    (hresp : ¬ (rt.response.Result = none ∧ rt.response.Error ≠ none)) :
    (checkSpec eng methods [rt] re g).err =
      ((validate eng method.result.schema (rt.response.Result.getD "")
        (rt.method ++ ".result")).2).map
        (fun err => .resultValidation rt.name err
          (if g then some (urlStr eng (forceDraft method.result.schema)
            (rt.response.Result.getD "")) else none)) := by
  obtain ⟨hlen, hloop⟩ := (paramsPass_iff eng method rt g).mp hpass
  have hl : ¬ method.params.length < rt.params.length := by omega
  have hskip : (rt.response.Result.isNone && rt.response.Error.isSome) = false := by
    cases hR : rt.response.Result with
    | some r => rfl
    | none =>
      cases hE : rt.response.Error with
      | none => rfl
      | some e => exact absurd ⟨hR, by rw [hE]; simp⟩ hresp
  rw [checkSpec_single_err eng re g hm, hname, hloop, hskip]
  simp only [Bool.false_eq_true, if_false, if_neg hl]
  cases (validate eng method.result.schema (rt.response.Result.getD "")
    (rt.method ++ ".result")).2 <;> rfl

/-- The error of a round trip on its own, not skipped and without too many
values, is that of the parameter loop when it has one. -/
theorem single_err_param (eng : Engine B V C E) {methods : Methods B} {rt : roundTrip}
    {method : methodSchema B} (re : Regexp) (g : Bool) {e : CheckError E}
    (hm : methods rt.method = some method)
    (hname : stringsContains rt.name "invalid" = false)
    (hlen : rt.params.length ≤ method.params.length)
    (hp : (paramLoop eng rt g 0 method.params).2 = some e) :
    (checkSpec eng methods [rt] re g).err = some e := by
  have hl : ¬ method.params.length < rt.params.length := by omega
  rw [checkSpec_single_err eng re g hm, hname, hp]
  simp only [Bool.false_eq_true, if_false, if_neg hl]

/-- The error of the parameter loop when the value at index `i` fails and the
values below it pass. -/
theorem paramLoop_snd_fail_at (eng : Engine B V C E) (rt : roundTrip) (g : Bool)
    (cds : List (ParamSchema B)) (i : Nat) (v : String) (cd : ParamSchema B) (err : GoError E)
    (hv : rt.params[i]? = some v) (hcd : cds[i]? = some cd)
    (hlow : ∀ (k : Nat) (w : String) (c : ParamSchema B), k < i → rt.params[k]? = some w →
      cds[k]? = some c →
      (validate eng c.schema w (rt.method ++ ".param[" ++ toString k ++ "]")).2 = none)
    (hfail : (validate eng cd.schema v (rt.method ++ ".param[" ++ toString i ++ "]")).2 =
      some err) :
    (paramLoop eng rt g 0 cds).2 =
      some (.parameterValidation rt.name err
        (if g then some (urlStr eng (forceDraft cd.schema) v) else none)) := by
  have hi : i < rt.params.length := (List.getElem?_eq_some_iff.mp hv).1
  have hpass := paramLoop_take_pass eng rt g cds i hlow (fun k c hk hki _ => by omega)
  rw [paramLoop_snd_at eng rt g cds i cd hcd hpass,
    paramLoop_cons_supplied eng rt g i cd _ v hv, hfail]

end Result

section Kept

variable {B V C E : Type}

theorem schemaKept_refl (s : JSONSchemaObject B) : SchemaKept s s := Or.inl rfl

theorem schemaKept_forceDraft (s : JSONSchemaObject B) : SchemaKept s (forceDraft s) :=
  Or.inr rfl

theorem schemaKept_trans {s s1 s2 : JSONSchemaObject B} (h1 : SchemaKept s s1)
    (h2 : SchemaKept s1 s2) : SchemaKept s s2 := by
  rcases h1 with h1 | h1 <;> rcases h2 with h2 | h2
  · exact Or.inl (by rw [h2, h1])
  · exact Or.inr (by rw [h2, h1])
  · exact Or.inr (by rw [h2, h1])
  · exact Or.inr (by rw [h2, h1, forceDraft_idem])

theorem paramKept_refl (cd : ParamSchema B) : ParamKept cd cd := ⟨rfl, schemaKept_refl _⟩

theorem paramKept_trans {a b c : ParamSchema B} (h1 : ParamKept a b) (h2 : ParamKept b c) :
    ParamKept a c :=
  ⟨h2.1.trans h1.1, schemaKept_trans h1.2 h2.2⟩

theorem paramsKept_refl (cds : List (ParamSchema B)) : List.Forall₂ ParamKept cds cds := by
  induction cds with
  | nil => exact List.Forall₂.nil
  | cons cd cds ih => exact List.Forall₂.cons (paramKept_refl cd) ih

theorem paramsKept_trans {as bs cs : List (ParamSchema B)} (h1 : List.Forall₂ ParamKept as bs)
    (h2 : List.Forall₂ ParamKept bs cs) : List.Forall₂ ParamKept as cs := by
  induction h1 generalizing cs with
  | nil => cases h2; exact List.Forall₂.nil
  | cons hab _ ih =>
    cases h2 with
    | cons hbc h2 => exact List.Forall₂.cons (paramKept_trans hab hbc) (ih h2)

theorem methodKept_refl (m : methodSchema B) : MethodKept m m :=
  ⟨rfl, paramsKept_refl _, schemaKept_refl _⟩

theorem methodKept_trans {a b c : methodSchema B} (h1 : MethodKept a b) (h2 : MethodKept b c) :
    MethodKept a c :=
  ⟨h2.1.trans h1.1, paramsKept_trans h1.2.1 h2.2.1, schemaKept_trans h1.2.2 h2.2.2⟩

theorem registryKept_refl (methods : Methods B) : RegistryKept methods methods := by
  intro k
  cases h : methods k with
  | none => exact Or.inl ⟨rfl, rfl⟩
  | some m => exact Or.inr ⟨m, m, rfl, rfl, methodKept_refl m⟩

theorem registryKept_trans {a b c : Methods B} (h1 : RegistryKept a b)
    (h2 : RegistryKept b c) : RegistryKept a c := by
  intro k
  rcases h1 k with ⟨ha, hb⟩ | ⟨m, m1, ha, hb, hk1⟩
  · rcases h2 k with ⟨_, hc⟩ | ⟨m1, m2, hb1, _, _⟩
    · exact Or.inl ⟨ha, hc⟩
    · rw [hb] at hb1; simp at hb1
  · rcases h2 k with ⟨hb1, _⟩ | ⟨m1a, m2, hb1, hc, hk2⟩
    · rw [hb] at hb1; simp at hb1
    · rw [hb] at hb1
      simp only [Option.some.injEq] at hb1
      subst hb1
      exact Or.inr ⟨m, m2, ha, hc, methodKept_trans hk1 hk2⟩

theorem registryKept_set {methods : Methods B} {key : String} {m m1 : methodSchema B}
    (h : methods key = some m) (hk : MethodKept m m1) :
    RegistryKept methods (methods.set key m1) := by
  intro k
  by_cases hkey : k = key
  · subst hkey
    exact Or.inr ⟨m, m1, h, methodsSet_self _ _ _, hk⟩
  · have hset : (methods.set key m1) k = methods k := by simp [Methods.set, hkey]
    rw [hset]
    exact registryKept_refl methods k

/-- The parameter loop leaves every declared parameter as it was or with the
draft written into its schema. -/
theorem paramLoop_fst_kept (eng : Engine B V C E) (rt : roundTrip) (g : Bool)
    (cds : List (ParamSchema B)) (i : Nat) :
    List.Forall₂ ParamKept cds (paramLoop eng rt g i cds).1 := by
  induction cds generalizing i with
  | nil => exact List.Forall₂.nil
  | cons cd cds ih =>
    have hcd : ∀ (v u : String),
        ParamKept cd { cd with schema := (validate eng cd.schema v u).1 } := by
      intro v u
      refine ⟨rfl, ?_⟩
      rw [validate_fst]
      exact schemaKept_forceDraft _
    unfold paramLoop
    split
    · split
      · exact List.Forall₂.cons (paramKept_refl cd) (ih (i + 1))
      · exact paramsKept_refl _
    · simp only []
      split
      · split
        · exact List.Forall₂.cons (hcd _ _) (paramsKept_refl _)
        · exact List.Forall₂.cons (hcd _ _) (paramsKept_refl _)
      · exact List.Forall₂.cons (hcd _ _) (ih (i + 1))

theorem afterParams_kept (eng : Engine B V C E) (rt : roundTrip) (g : Bool)
    (method : methodSchema B) : MethodKept method (afterParams eng rt g method) :=
  ⟨rfl, paramLoop_fst_kept eng rt g method.params 0, schemaKept_refl _⟩

theorem afterResult_kept (eng : Engine B V C E) (rt : roundTrip) (g : Bool)
    (method : methodSchema B) : MethodKept method (afterResult eng rt g method) :=
  ⟨rfl, paramLoop_fst_kept eng rt g method.params 0, schemaKept_forceDraft _⟩

/-- A run leaves the registry as it was, up to dialect markers overwritten
with the draft. -/
theorem checkSpec_methods_kept (eng : Engine B V C E) (methods : Methods B)
    (rts : List roundTrip) (re : Regexp) (g : Bool) :
    RegistryKept methods (checkSpec eng methods rts re g).methods := by
  induction rts generalizing methods with
  | nil => rw [checkSpec_nil]; exact registryKept_refl methods
  | cons rt rts ih =>
    cases h : methods rt.method with
    | none => rw [checkSpec_cons_none eng rts re g h]; exact registryKept_refl methods
    | some method =>
      have hp := registryKept_set h (afterParams_kept eng rt g method)
      have hr := registryKept_set h (afterResult_kept eng rt g method)
      rw [checkSpec_cons_some eng rts re g h]
      split
      · exact ih methods
      · split
        · exact registryKept_refl methods
        · split
          · exact hp
          · split
            · exact registryKept_trans hp (ih _)
            · split
              · exact hr
              · exact registryKept_trans hr (ih _)

theorem paramsKept_getElem {as bs : List (ParamSchema B)} (h : List.Forall₂ ParamKept as bs)
    (i : Nat) (cd cd1 : ParamSchema B) (ha : as[i]? = some cd) (hb : bs[i]? = some cd1) :
    ParamKept cd cd1 := by
  induction h generalizing i with
  | nil => simp at ha
  | cons hab _ ih =>
    cases i with
    | zero =>
      simp only [List.getElem?_cons_zero, Option.some.injEq] at ha hb
      rw [← ha, ← hb]; exact hab
    | succ i =>
      simp only [List.getElem?_cons_succ] at ha hb
      exact ih i ha hb

theorem schemaKept_fields {s s1 : JSONSchemaObject B} (h : SchemaKept s s1) :
    s1.body = s.body ∧ (s1.Schema = s.Schema ∨ s1.Schema = some draft) := by
  rcases h with h | h
  · rw [h]; exact ⟨rfl, Or.inl rfl⟩
  · rw [h]; exact ⟨rfl, Or.inr rfl⟩

end Kept

section Order

variable {B V C E : Type}

/-- The parameter loop returns the error `e` exactly when some declared
parameter fails with `e` and all those in front of it pass. -/
theorem paramLoop_snd_some_iff (eng : Engine B V C E) (rt : roundTrip) (g : Bool) (i : Nat)
    (cds : List (ParamSchema B)) (e : CheckError E) :
    (paramLoop eng rt g i cds).2 = some e ↔
      ∃ j cd, cds[j]? = some cd ∧
        (∀ (k : Nat) (c : ParamSchema B), k < j → cds[k]? = some c →
          IndexPasses eng rt (i + k) c) ∧
        IndexFails eng rt g (i + j) cd e := by
  induction cds generalizing i with
  | nil => simp [paramLoop]
  | cons cd cds ih =>
    have hsucc : ∀ j, i + 1 + j = i + (j + 1) := by intro j; omega
    constructor
    · intro h
      cases hv : rt.params[i]? with
      | none =>
        have hi : rt.params.length ≤ i := List.getElem?_eq_none_iff.mp hv
        rw [paramLoop_cons_missing eng rt g i cd _ hi] at h
        by_cases hr : cd.required = true
        · rw [if_pos hr] at h
          simp only [Option.some.injEq] at h
          refine ⟨0, cd, by simp, fun k c hk _ => by omega, Or.inl ⟨?_, hr, h.symm⟩⟩
          simpa using hv
        · rw [if_neg hr] at h
          obtain ⟨j, cdj, hj, hlow, hfail⟩ := (ih (i + 1)).mp h
          refine ⟨j + 1, cdj, by simpa using hj, ?_, by rw [← hsucc]; exact hfail⟩
          intro k c hk hc
          cases k with
          | zero =>
            simp only [List.getElem?_cons_zero, Option.some.injEq] at hc
            subst hc
            simp only [IndexPasses, Nat.add_zero, hv]
            simpa using hr
          | succ k =>
            rw [← hsucc]
            exact hlow k c (by omega) (by simpa using hc)
      | some v =>
        rw [paramLoop_cons_supplied eng rt g i cd _ v hv] at h
        cases hval : (validate eng cd.schema v
            (rt.method ++ ".param[" ++ toString i ++ "]")).2 with
        | some err =>
          simp only [hval, Option.some.injEq] at h
          refine ⟨0, cd, by simp, fun k c hk _ => by omega, Or.inr ⟨v, err, ?_, hval, ?_⟩⟩
          · simpa using hv
          · rw [validate_fst]; exact h.symm
        | none =>
          simp only [hval] at h
          obtain ⟨j, cdj, hj, hlow, hfail⟩ := (ih (i + 1)).mp h
          refine ⟨j + 1, cdj, by simpa using hj, ?_, by rw [← hsucc]; exact hfail⟩
          intro k c hk hc
          cases k with
          | zero =>
            simp only [List.getElem?_cons_zero, Option.some.injEq] at hc
            subst hc
            simp only [IndexPasses, Nat.add_zero, hv]
            exact hval
          | succ k =>
            rw [← hsucc]
            exact hlow k c (by omega) (by simpa using hc)
    · rintro ⟨j, cdj, hj, hlow, hfail⟩
      cases j with
      | zero =>
        simp only [List.getElem?_cons_zero, Option.some.injEq] at hj
        subst hj
        rw [Nat.add_zero] at hfail
        rcases hfail with ⟨hv, hr, he⟩ | ⟨v, err, hv, hval, he⟩
        · have hi : rt.params.length ≤ i := List.getElem?_eq_none_iff.mp hv
          rw [paramLoop_cons_missing eng rt g i cd _ hi, if_pos hr, he]
        · rw [paramLoop_cons_supplied eng rt g i cd _ v hv, hval, he, validate_fst]
      | succ j =>
        have h0 := hlow 0 cd (by omega) (by simp)
        have hrest : (paramLoop eng rt g (i + 1) cds).2 = some e := by
          refine (ih (i + 1)).mpr ⟨j, cdj, by simpa using hj, ?_, by rw [hsucc]; exact hfail⟩
          intro k c hk hc
          rw [hsucc]
          exact hlow (k + 1) c (by omega) (by simpa using hc)
        simp only [IndexPasses, Nat.add_zero] at h0
        cases hv : rt.params[i]? with
        | none =>
          have hi : rt.params.length ≤ i := List.getElem?_eq_none_iff.mp hv
          rw [hv] at h0
          simp only at h0
          rw [paramLoop_cons_missing eng rt g i cd _ hi, h0]
          simpa using hrest
        | some v =>
          rw [hv] at h0
          simp only at h0
          rw [paramLoop_cons_supplied eng rt g i cd _ v hv, h0]
          exact hrest

/-- The parameter loop returns no error exactly when every declared
parameter passes. -/
theorem paramLoop_snd_none_iff_index (eng : Engine B V C E) (rt : roundTrip) (g : Bool)
    (cds : List (ParamSchema B)) :
    (paramLoop eng rt g 0 cds).2 = none ↔
      ∀ (k : Nat) (c : ParamSchema B), cds[k]? = some c → IndexPasses eng rt k c := by
  rw [paramLoop_snd_none_iff]
  simp only [Nat.zero_add]
  constructor
  · rintro ⟨h1, h2⟩ k c hc
    unfold IndexPasses
    cases hv : rt.params[k]? with
    | none => exact h2 k c (List.getElem?_eq_none_iff.mp hv) hc
    | some w => exact h1 k w c hv hc
  · intro h
    refine ⟨?_, ?_⟩
    · intro k w c hw hc
      have := h k c hc
      simp only [IndexPasses, hw] at this
      exact this
    · intro k c hk hc
      have := h k c hc
      have hv : rt.params[k]? = none := List.getElem?_eq_none_iff.mpr hk
      simp only [IndexPasses, hv] at this
      exact this

end Order

/-! ## The claims -/

section Claims

variable {B V C E : Type}

/-- C1: for every registry, corpus and value of the debug flag, `checkSpec`
returns nil exactly when every round trip of the corpus passes on its own,
where passing is `Passes`: the method resolves and either the name contains
"invalid" or the count, the supplied values, the missing parameters and the
response are all in order. -/
theorem checkSpec_nil_iff_all_pass (eng : Engine B V C E) (methods : Methods B)
    (rts : List roundTrip) (re : Regexp) (generateUrls : Bool) :
    (checkSpec eng methods rts re generateUrls).err = none ↔
      ∀ rt ∈ rts, Passes eng methods rt := by
  rw [checkSpec_err_none_iff]
  constructor
  · intro h rt hrt
    exact (single_err_none_iff_passes eng methods rt re generateUrls).mp (h rt hrt)
  · intro h rt hrt
    exact (single_err_none_iff_passes eng methods rt re generateUrls).mpr (h rt hrt)

/-- Scenario A passes in the words of the specification, so its run succeeds. -/
theorem checkSpec_nil_iff_all_pass_witness :
    Passes exampleEngine exampleMethods sumOk ∧
      (checkSpec exampleEngine exampleMethods [sumOk] exampleRe true).err = none := by
  have hp : Passes exampleEngine exampleMethods sumOk := by
    refine ⟨sumMethod, rfl, Or.inr ⟨by decide, ?_, ?_, Or.inr (by rfl)⟩⟩
    · intro i v cd hv hcd
      match i with
      | 0 =>
        simp only [sumOk, sumMethod, List.getElem?_cons_zero, Option.some.injEq] at hv hcd
        subst hv; subst hcd; rfl
      | 1 =>
        simp only [sumOk, sumMethod, List.getElem?_cons_succ, List.getElem?_cons_zero,
          Option.some.injEq] at hv hcd
        subst hv; subst hcd; rfl
      | n + 2 => simp [sumOk] at hv
    · intro i cd hi hcd
      match i with
      | 0 => simp [sumOk] at hi
      | 1 => simp [sumOk] at hi
      | n + 2 => simp [sumMethod] at hcd
  refine ⟨hp,
    (checkSpec_nil_iff_all_pass exampleEngine exampleMethods [sumOk] exampleRe true).mpr ?_⟩
  intro rt hrt
  rw [List.mem_singleton] at hrt
  rw [hrt]; exact hp

/-- C2: fail-fast. In a corpus `pre ++ [rt] ++ suf` in which every round trip
of `pre` passes on its own and `rt` fails on its own with error `e`,
`checkSpec` returns exactly `e`, and the whole run (registry, output, error)
is that of the corpus without `suf`. -/
theorem checkSpec_fail_fast (eng : Engine B V C E) (methods : Methods B)
    (pre : List roundTrip) (rt : roundTrip) (suf : List roundTrip) (re : Regexp)
    (generateUrls : Bool) (e : CheckError E)
    (hpre : ∀ r ∈ pre, (checkSpec eng methods [r] re generateUrls).err = none)
    (hrt : (checkSpec eng methods [rt] re generateUrls).err = some e) :
    (checkSpec eng methods (pre ++ [rt] ++ suf) re generateUrls).err = some e ∧
      checkSpec eng methods (pre ++ [rt] ++ suf) re generateUrls =
        checkSpec eng methods (pre ++ [rt]) re generateUrls := by
  have h1 : (checkSpec eng methods (pre ++ [rt]) re generateUrls).err = some e := by
    rw [checkSpec_err_append_pass eng methods pre [rt] re generateUrls hpre, hrt]
  have hne : (checkSpec eng methods (pre ++ [rt]) re generateUrls).err ≠ none := by
    rw [h1]; simp
  have h2 := checkSpec_append_of_err eng methods (pre ++ [rt]) suf re generateUrls hne
  exact ⟨by rw [h2, h1], h2⟩

/-- A corpus with failures at positions 2 and 5 only reports the failure of
position 2. -/
theorem checkSpec_fail_fast_witness :
    (checkSpec exampleEngine exampleMethods [sumBad] exampleRe false).err =
        some (.parameterValidation "sum-bad" (.lib "sum.param[1]: expected integer") none) ∧
      (checkSpec exampleEngine exampleMethods [sumBadResult] exampleRe false).err =
        some (.resultValidation "sum-bad-result" (.lib "sum.result: expected integer") none) ∧
      (checkSpec exampleEngine exampleMethods
        ([sumOk, greetShort] ++ [sumBad] ++ [sumOk, greetShort, sumBadResult])
        exampleRe false).err =
        some (.parameterValidation "sum-bad" (.lib "sum.param[1]: expected integer") none) :=
  ⟨by rfl, by rfl,
    (checkSpec_fail_fast exampleEngine exampleMethods [sumOk, greetShort] sumBad
      [sumOk, greetShort, sumBadResult] exampleRe false _
      (by intro r hr
          simp only [List.mem_cons, List.mem_singleton, List.not_mem_nil, or_false] at hr
          rcases hr with rfl | rfl <;> rfl)
      (by rfl)).1⟩

/-- C3: in a corpus whose round trips before `rt` pass and whose round trip
`rt` names a method that is not a key of the registry, `checkSpec` fails with
the error "undefined method: " followed by that name, whatever the name,
parameters and response of `rt`; the registry is as the earlier round trips
left it and nothing is printed. -/
theorem checkSpec_undefined_method (eng : Engine B V C E) (methods : Methods B)
    (pre : List roundTrip) (rt : roundTrip) (suf : List roundTrip) (re : Regexp)
    (generateUrls : Bool)
    (hpre : ∀ r ∈ pre, (checkSpec eng methods [r] re generateUrls).err = none)
    (hm : methods rt.method = none) :
    checkSpec eng methods (pre ++ rt :: suf) re generateUrls =
        ⟨(checkSpec eng methods pre re generateUrls).methods, [],
          some (.undefinedMethod rt.method)⟩ ∧
      (CheckError.undefinedMethod rt.method : CheckError E).Error eng =
        "undefined method: " ++ rt.method := by
  refine ⟨?_, rfl⟩
  rw [checkSpec_run_append_pass eng methods pre _ re generateUrls hpre]
  exact checkSpec_cons_none eng suf re generateUrls
    (checkSpec_methods_lookup_none eng pre re generateUrls hm)

/-- Scenario D, after a passing round trip and under a name that contains
"invalid": the run fails with the undefined method. -/
theorem checkSpec_undefined_method_witness :
    (checkSpec exampleEngine exampleMethods ([sumOk] ++ unknownCall :: [sumBad]) exampleRe
        true).err = some (.undefinedMethod "nonexistent") ∧
      (CheckError.undefinedMethod unknownCall.method : CheckError String).Error exampleEngine =
        "undefined method: nonexistent" := by
  have h := checkSpec_undefined_method exampleEngine exampleMethods [sumOk] unknownCall [sumBad]
    exampleRe true
    (by intro r hr; rw [List.mem_singleton] at hr; rw [hr]; rfl) (by rfl)
  exact ⟨by rw [h.1]; rfl, by rw [h.2]; rfl⟩

/-- C4: a round trip whose name contains "invalid" as a substring and whose
method resolves is skipped: the run of the corpus with it equals (registry,
output and error) the run of the corpus without it, whatever the schemas of
the method, the supplied parameters and the response. -/
theorem checkSpec_skip_invalid (eng : Engine B V C E) (methods : Methods B)
    (pre : List roundTrip) (rt : roundTrip) (suf : List roundTrip) (re : Regexp)
    (generateUrls : Bool) (method : methodSchema B)
    (hname : "invalid".data <:+: rt.name.data)
    (hm : methods rt.method = some method) :
    checkSpec eng methods (pre ++ rt :: suf) re generateUrls =
      checkSpec eng methods (pre ++ suf) re generateUrls := by
  have hc : stringsContains rt.name "invalid" = true :=
    (stringsContains_iff_isInfix rt.name "invalid").mpr hname
  cases h : (checkSpec eng methods pre re generateUrls).err with
  | none =>
    obtain ⟨m1, hm1, -⟩ := checkSpec_methods_lookup eng pre re generateUrls hm
    rw [checkSpec_append_of_ok eng methods pre _ re generateUrls h,
      checkSpec_append_of_ok eng methods pre _ re generateUrls h,
      checkSpec_cons_some eng suf re generateUrls hm1, if_pos hc]
  | some e =>
    have hne : (checkSpec eng methods pre re generateUrls).err ≠ none := by rw [h]; simp
    rw [checkSpec_append_of_err eng methods pre _ re generateUrls hne,
      checkSpec_append_of_err eng methods pre _ re generateUrls hne]

/-- Scenario E: the round trip named test-invalid-case supplies a value that
violates its schema, and the run does not fail. -/
theorem checkSpec_skip_invalid_witness :
    (validate exampleEngine (schemaOf .integer) "\"two\"" "sum.param[0]").2 ≠ none ∧
      (checkSpec exampleEngine exampleMethods ([sumOk] ++ invalidCase :: [greetShort]) exampleRe
        false).err = none := by
  have h := checkSpec_skip_invalid exampleEngine exampleMethods [sumOk] invalidCase [greetShort]
    exampleRe false sumMethod (by decide) (by rfl)
  exact ⟨by decide, by rw [h]; rfl⟩

/-- C5, as stated, fails: a round trip whose method resolves and which
supplies three values to the two declared parameters of `sum`, under a name
that contains "invalid", gives no error. -/
theorem too_many_parameters_counterexample :
    exampleMethods invalidExtra.method = some sumMethod ∧
      sumMethod.params.length < invalidExtra.params.length ∧
      (checkSpec exampleEngine exampleMethods [invalidExtra] exampleRe false).err = none :=
  ⟨rfl, by decide, by rfl⟩

/-- C5, amended: a round trip whose name does not contain "invalid", whose
method resolves and which supplies more values than the method declares,
after round trips that pass, makes `checkSpec` fail with the too many
parameters error; the registry is as the earlier round trips left it (no
schema of the round trip was validated) and nothing is printed. -/
theorem checkSpec_too_many_parameters (eng : Engine B V C E) (methods : Methods B)
    (pre : List roundTrip) (rt : roundTrip) (suf : List roundTrip) (re : Regexp)
    (generateUrls : Bool) (method : methodSchema B)
    (hpre : ∀ r ∈ pre, (checkSpec eng methods [r] re generateUrls).err = none)
    (hm : methods rt.method = some method)
    (hname : stringsContains rt.name "invalid" = false)
    (hlen : method.params.length < rt.params.length) :
    checkSpec eng methods (pre ++ rt :: suf) re generateUrls =
        ⟨(checkSpec eng methods pre re generateUrls).methods, [],
          some (.tooManyParameters method.name)⟩ ∧
      (CheckError.tooManyParameters method.name : CheckError E).Error eng =
        method.name ++ ": too many parameters" := by
  refine ⟨?_, rfl⟩
  obtain ⟨m1, hm1, hn⟩ := checkSpec_methods_lookup eng pre re generateUrls hm
  obtain ⟨hname1, hparams, -⟩ := methodNorm_eq hn
  have hlen1 : m1.params.length = method.params.length := by
    have := congrArg List.length hparams
    simpa using this
  rw [checkSpec_run_append_pass eng methods pre _ re generateUrls hpre,
    checkSpec_cons_some eng suf re generateUrls hm1, hname, hlen1, if_pos hlen, hname1]
  simp

/-- Three values for the two declared parameters of `sum`, after a passing
round trip: the run fails with too many parameters. -/
theorem checkSpec_too_many_parameters_witness :
    (checkSpec exampleEngine exampleMethods ([sumOk] ++ sumExtra :: [sumOk]) exampleRe
        true).err = some (.tooManyParameters "sum") := by
  have h := checkSpec_too_many_parameters exampleEngine exampleMethods [sumOk] sumExtra [sumOk]
    exampleRe true sumMethod
    (by intro r hr; rw [List.mem_singleton] at hr; rw [hr]; rfl) (by rfl) (by decide)
    (by decide)
  rw [h.1]; rfl

/-- C6: a round trip that is not skipped by name, whose method resolves, whose
`n` supplied values (`n` at most the declared count) all validate, and whose
method declares a required parameter at an index from `n` on, makes
`checkSpec` fail with the missing required parameter error for the least
such index `j`, with the message "missing required parameter
method.param[j]"; the result is not validated: nothing is printed and the
result schema of the method is as it was before this round trip. -/
theorem checkSpec_missing_required (eng : Engine B V C E) (methods : Methods B)
    (pre : List roundTrip) (rt : roundTrip) (suf : List roundTrip) (re : Regexp)
    (generateUrls : Bool) (method : methodSchema B) (j : Nat) (cdj : ParamSchema B)
    (hpre : ∀ r ∈ pre, (checkSpec eng methods [r] re generateUrls).err = none)
    (hm : methods rt.method = some method)
    (hname : stringsContains rt.name "invalid" = false)
    (hlen : rt.params.length ≤ method.params.length)
    (hvals : ∀ (i : Nat) (v : String) (cd : ParamSchema B), rt.params[i]? = some v →
      method.params[i]? = some cd →
      (validate eng cd.schema v (rt.method ++ ".param[" ++ toString i ++ "]")).2 = none)
    (hj : rt.params.length ≤ j) (hcd : method.params[j]? = some cdj)
    (hreq : cdj.required = true)
    (hleast : ∀ (i : Nat) (cd : ParamSchema B), rt.params.length ≤ i → i < j →
      method.params[i]? = some cd → cd.required = false) :
    (checkSpec eng methods (pre ++ rt :: suf) re generateUrls).err =
        some (.missingRequiredParameter rt.method j) ∧
      (CheckError.missingRequiredParameter rt.method j : CheckError E).Error eng =
        "missing required parameter " ++ rt.method ++ ".param[" ++ toString j ++ "]" ∧
      (checkSpec eng methods (pre ++ rt :: suf) re generateUrls).stdout = [] ∧
      ∃ m0 m1, (checkSpec eng methods pre re generateUrls).methods rt.method = some m0 ∧
        (checkSpec eng methods (pre ++ rt :: suf) re generateUrls).methods rt.method = some m1 ∧
        m1.result = m0.result := by
  have hpass := paramLoop_take_pass eng rt generateUrls method.params j
    (fun i v cd _ hv hc => hvals i v cd hv hc) hleast
  have hp : (paramLoop eng rt generateUrls 0 method.params).2 =
      some (.missingRequiredParameter rt.method j) := by
    rw [paramLoop_snd_at eng rt generateUrls method.params j cdj hcd hpass,
      paramLoop_cons_missing eng rt generateUrls j cdj _ hj, if_pos hreq]
  obtain ⟨m1, hm1, hrun⟩ := checkSpec_append_param_err eng methods pre rt suf re generateUrls
    method _ hpre hm hname hlen hp
  rw [hrun]
  exact ⟨rfl, rfl, rfl, m1, afterParams eng rt generateUrls m1, hm1, methodsSet_self _ _ _, rfl⟩

/-- The method `mix` with its first value only: the optional parameter at
index 1 is passed over and the required one at index 2 is reported. -/
theorem checkSpec_missing_required_witness :
    (checkSpec exampleEngine exampleMethods ([sumOk] ++ mixShort :: [sumBad]) exampleRe
        false).err = some (.missingRequiredParameter "mix" 2) ∧
      (CheckError.missingRequiredParameter mixShort.method 2 : CheckError String).Error
        exampleEngine = "missing required parameter mix.param[2]" := by
  have h := checkSpec_missing_required exampleEngine exampleMethods [sumOk] mixShort [sumBad]
    exampleRe false mixMethod 2 ⟨schemaOf .string, true⟩
    (by intro r hr; rw [List.mem_singleton] at hr; rw [hr]; rfl) (by rfl) (by decide)
    (by decide)
    (by
      intro i v cd hv hc
      match i with
      | 0 =>
        simp only [mixShort, mixMethod, List.getElem?_cons_zero, Option.some.injEq] at hv hc
        subst hv; subst hc; rfl
      | n + 1 => simp [mixShort] at hv)
    (by decide) (by rfl) (by rfl)
    (by
      intro i cd hi hij hc
      match i with
      | 0 => simp [mixShort] at hi
      | 1 =>
        simp only [mixMethod, List.getElem?_cons_succ, List.getElem?_cons_zero,
          Option.some.injEq] at hc
        subst hc; rfl
      | n + 2 => omega)
  exact ⟨h.1, by rw [h.2.1]; rfl⟩

/-- C7: when every declared parameter of the method at an index from the
supplied count on is optional, checking the round trip gives the same error
as checking it against the same method with its declared parameters cut down
to the supplied count. -/
theorem checkSpec_optional_trailing (eng : Engine B V C E) (methods : Methods B)
    (rt : roundTrip) (re : Regexp) (generateUrls : Bool) (method : methodSchema B)
    (hm : methods rt.method = some method)
    (hopt : ∀ (i : Nat) (cd : ParamSchema B), rt.params.length ≤ i →
      method.params[i]? = some cd → cd.required = false) :
    (checkSpec eng methods [rt] re generateUrls).err =
      (checkSpec eng
        (methods.set rt.method { method with params := method.params.take rt.params.length })
        [rt] re generateUrls).err := by
  rw [checkSpec_single_err eng re generateUrls hm,
    checkSpec_single_err eng re generateUrls (methodsSet_self methods rt.method _)]
  split
  · rfl
  · by_cases hl : method.params.length < rt.params.length
    · have ht : method.params.take rt.params.length = method.params :=
        List.take_of_length_le (by omega)
      simp only [ht]
    · have hlt : (method.params.take rt.params.length).length = rt.params.length := by
        rw [List.length_take]; omega
      have hl1 : ¬ (method.params.take rt.params.length).length < rt.params.length := by omega
      have hrest : (paramLoop eng rt generateUrls (0 + (method.params.take rt.params.length).length)
          (method.params.drop rt.params.length)).2 = none := by
        rw [paramLoop_snd_none_iff]
        refine ⟨?_, ?_⟩
        · intro k v cd hv _
          have hnone : rt.params[0 + (method.params.take rt.params.length).length + k]? = none :=
            List.getElem?_eq_none_iff.mpr (by omega)
          rw [hnone] at hv
          simp at hv
        · intro k cd _ hc
          rw [List.getElem?_drop] at hc
          exact hopt _ cd (by omega) hc
      have hloop : (paramLoop eng rt generateUrls 0 method.params).2 =
          (paramLoop eng rt generateUrls 0 (method.params.take rt.params.length)).2 := by
        have happ := paramLoop_snd_append_eq eng rt generateUrls 0
          (method.params.take rt.params.length) (method.params.drop rt.params.length)
        rw [List.take_append_drop, hrest] at happ
        rw [happ]
        cases (paramLoop eng rt generateUrls 0 (method.params.take rt.params.length)).2 <;> rfl
      simp only [if_neg hl, if_neg hl1, hloop]

/-- Scenario C: `greet` with its required string only passes, as it does
against `greet` cut down to its first parameter. -/
theorem checkSpec_optional_trailing_witness :
    (checkSpec exampleEngine exampleMethods [greetShort] exampleRe false).err = none ∧
      (checkSpec exampleEngine
        (exampleMethods.set "greet" { greetMethod with params := [⟨schemaOf .string, true⟩] })
        [greetShort] exampleRe false).err = none := by
  have h := checkSpec_optional_trailing exampleEngine exampleMethods greetShort exampleRe false
    greetMethod (by rfl)
    (by
      intro i cd hi hc
      match i with
      | 0 => simp [greetShort] at hi
      | 1 =>
        simp only [greetMethod, List.getElem?_cons_succ, List.getElem?_cons_zero,
          Option.some.injEq] at hc
        subst hc; rfl
      | n + 2 => simp [greetMethod] at hc)
  exact ⟨by rfl, h.symm.trans (by rfl)⟩

/-- C8: for a round trip whose response has an error and no result, the error
of checking it is the same whatever result schema the method has; it is the
error of the name, count and parameter checks alone; and the result schema of
the method is not written to (the validator was not called on it). -/
theorem checkSpec_error_response (eng : Engine B V C E) (methods : Methods B)
    (rt : roundTrip) (re : Regexp) (generateUrls : Bool) (method : methodSchema B)
    (rs : ResultSchema B)
    (hm : methods rt.method = some method)
    (hres : rt.response.Result = none) (herr : rt.response.Error ≠ none) :
    (checkSpec eng (methods.set rt.method { method with result := rs }) [rt] re
        generateUrls).err = (checkSpec eng methods [rt] re generateUrls).err ∧
      (checkSpec eng methods [rt] re generateUrls).err =
        (if stringsContains rt.name "invalid" then none
        else if method.params.length < rt.params.length then
          some (.tooManyParameters method.name)
        else (paramLoop eng rt generateUrls 0 method.params).2) ∧
      ∃ m1, (checkSpec eng methods [rt] re generateUrls).methods rt.method = some m1 ∧
        m1.result = method.result := by
  have hskip : (rt.response.Result.isNone && rt.response.Error.isSome) = true := by
    rw [hres]
    cases hE : rt.response.Error with
    | none => exact absurd hE herr
    | some e => rfl
  refine ⟨?_, ?_, ?_⟩
  · rw [checkSpec_single_err eng re generateUrls hm,
      checkSpec_single_err eng re generateUrls (methodsSet_self methods rt.method _)]
    simp only [hskip, if_true]
  · rw [checkSpec_single_err eng re generateUrls hm]
    simp only [hskip, if_true]
    split
    · rfl
    · split
      · rfl
      · cases (paramLoop eng rt generateUrls 0 method.params).2 <;> rfl
  · rw [checkSpec_cons_some eng [] re generateUrls hm]
    simp only [hskip, if_true, checkSpec_nil]
    split
    · exact ⟨method, hm, rfl⟩
    · split
      · exact ⟨method, hm, rfl⟩
      · split
        · exact ⟨_, methodsSet_self _ _ _, rfl⟩
        · exact ⟨_, methodsSet_self _ _ _, rfl⟩

/-- An error response to `sum`: the run passes also when the result schema of
`sum` is replaced by one for strings. -/
theorem checkSpec_error_response_witness :
    (checkSpec exampleEngine
        (exampleMethods.set "sum" { sumMethod with result := ⟨schemaOf .string⟩ })
        [sumError] exampleRe true).err = none ∧
      (checkSpec exampleEngine exampleMethods [sumError] exampleRe true).err = none := by
  have h := checkSpec_error_response exampleEngine exampleMethods sumError exampleRe true
    sumMethod ⟨schemaOf .string⟩ (by rfl) (by rfl) (by decide)
  exact ⟨h.1.trans (by rfl), by rfl⟩

/-- C9: parameter validation is positional. For a round trip that is not
skipped, whose method resolves and which supplies at most the declared
count: when the supplied value at index `i` fails against the declared schema
at index `i` under the context "method.param[i]", and the values at lower
indices pass against the schemas at their own indices, the run fails with
the parameter validation error that carries the error of that call (and,
with the flag, the URL of that schema and that value). -/
theorem checkSpec_parameter_positional (eng : Engine B V C E) (methods : Methods B)
    (pre : List roundTrip) (rt : roundTrip) (suf : List roundTrip) (re : Regexp)
    (generateUrls : Bool) (method : methodSchema B) (i : Nat) (v : String)
    (cd : ParamSchema B) (err : GoError E)
    (hpre : ∀ r ∈ pre, (checkSpec eng methods [r] re generateUrls).err = none)
    (hm : methods rt.method = some method)
    (hname : stringsContains rt.name "invalid" = false)
    (hlen : rt.params.length ≤ method.params.length)
    (hv : rt.params[i]? = some v) (hcd : method.params[i]? = some cd)
    (hlow : ∀ (k : Nat) (w : String) (c : ParamSchema B), k < i → rt.params[k]? = some w →
      method.params[k]? = some c →
      (validate eng c.schema w (rt.method ++ ".param[" ++ toString k ++ "]")).2 = none)
    (hfail : (validate eng cd.schema v (rt.method ++ ".param[" ++ toString i ++ "]")).2 =
      some err) :
    (checkSpec eng methods (pre ++ rt :: suf) re generateUrls).err =
      some (.parameterValidation rt.name err
        (if generateUrls then
          some (urlStr eng
            (validate eng cd.schema v (rt.method ++ ".param[" ++ toString i ++ "]")).1 v)
        else none)) := by
  have hi : i < rt.params.length := (List.getElem?_eq_some_iff.mp hv).1
  have hpass := paramLoop_take_pass eng rt generateUrls method.params i hlow
    (fun k c hk hki _ => by omega)
  have hp : (paramLoop eng rt generateUrls 0 method.params).2 =
      some (.parameterValidation rt.name err
        (if generateUrls then
          some (urlStr eng
            (validate eng cd.schema v (rt.method ++ ".param[" ++ toString i ++ "]")).1 v)
        else none)) := by
    rw [paramLoop_snd_at eng rt generateUrls method.params i cd hcd hpass,
      paramLoop_cons_supplied eng rt generateUrls i cd _ v hv, hfail, validate_fst]
  obtain ⟨m1, -, hrun⟩ := checkSpec_append_param_err eng methods pre rt suf re generateUrls
    method _ hpre hm hname hlen hp
  rw [hrun]

/-- Scenario B: `sum` with `[1, "two"]` fails on the parameter at index 1, the
error being that of the integer schema under the context sum.param[1]. And
the values of `mix` pass in their order, while with the first and last
swapped the text meets the integer schema at index 0. -/
theorem checkSpec_parameter_positional_witness :
    (checkSpec exampleEngine exampleMethods ([sumOk] ++ sumBad :: [sumOk]) exampleRe false).err =
        some (.parameterValidation "sum-bad" (.lib "sum.param[1]: expected integer") none) ∧
      (checkSpec exampleEngine exampleMethods [mixFull] exampleRe false).err = none ∧
      (checkSpec exampleEngine exampleMethods [mixSwapped] exampleRe false).err =
        some (.parameterValidation "mix-swapped" (.lib "mix.param[0]: expected integer")
          none) := by
  have h := checkSpec_parameter_positional exampleEngine exampleMethods [sumOk] sumBad [sumOk]
    exampleRe false sumMethod 1 "\"two\"" ⟨schemaOf .integer, true⟩
    (.lib "sum.param[1]: expected integer")
    (by intro r hr; rw [List.mem_singleton] at hr; rw [hr]; rfl) (by rfl) (by decide)
    (by decide) (by rfl) (by rfl)
    (by
      intro k w c hk hw hc
      match k with
      | 0 =>
        simp only [sumBad, sumMethod, List.getElem?_cons_zero, Option.some.injEq] at hw hc
        subst hw; subst hc; rfl
      | n + 1 => omega)
    (by rfl)
  exact ⟨h.trans (by rfl), by rfl, by rfl⟩

/-- C10: the debug flag does not change whether a run passes. With and
without the flag the run gives nil together; the error without the flag is
the error with the flag less its URL (same kind, same arguments); both runs
fail at the same round trip, in front of which all round trips pass on their
own; the errors for an undefined method, too many parameters and a missing
required parameter are the same, and the message of a parameter or result
validation error with the flag is the message without the flag followed by
"\nURL: " and the debug URL. -/
theorem checkSpec_debug_flag (eng : Engine B V C E) (methods : Methods B)
    (rts : List roundTrip) (re : Regexp) :
    ((checkSpec eng methods rts re true).err = none ↔
        (checkSpec eng methods rts re false).err = none) ∧
      (checkSpec eng methods rts re false).err =
        ((checkSpec eng methods rts re true).err).map CheckError.dropUrl ∧
      ∀ e1, (checkSpec eng methods rts re true).err = some e1 →
        (∃ pre rt suf, rts = pre ++ rt :: suf ∧
          (∀ r ∈ pre, (checkSpec eng methods [r] re true).err = none ∧
            (checkSpec eng methods [r] re false).err = none) ∧
          (checkSpec eng methods [rt] re true).err = some e1 ∧
          (checkSpec eng methods [rt] re false).err = some e1.dropUrl) ∧
        (match e1 with
          | .parameterValidation name err u =>
            ∃ s v, u = some (urlStr eng s v) ∧
              (CheckError.parameterValidation name err u).Error eng =
                (CheckError.parameterValidation name err none).Error eng ++ "\nURL: " ++
                  urlStr eng s v
          | .resultValidation name err u =>
            ∃ s v, u = some (urlStr eng s v) ∧
              (CheckError.resultValidation name err u).Error eng =
                (CheckError.resultValidation name err none).Error eng ++ "\nURL: " ++
                  urlStr eng s v
          | e => e.dropUrl = e) := by
  have hflag := checkSpec_err_flag eng methods rts re
  refine ⟨?_, hflag, ?_⟩
  · rw [hflag]
    cases (checkSpec eng methods rts re true).err <;> simp
  · intro e1 h1
    obtain ⟨pre, rt, suf, hsplit, hpre, hrt⟩ :=
      checkSpec_err_some_split eng methods rts re true e1 h1
    refine ⟨⟨pre, rt, suf, hsplit, ?_, hrt, ?_⟩, ?_⟩
    · intro r hr
      refine ⟨hpre r hr, ?_⟩
      rw [single_err_flag eng methods r re, hpre r hr]; rfl
    · rw [single_err_flag eng methods rt re, hrt]; rfl
    · have hshape := single_flagOn eng methods rt re e1 hrt
      cases e1 <;> exact hshape

/-- Scenario B with and without the flag: the same parameter validation
error, and with the flag its message ends with the debug URL. -/
theorem checkSpec_debug_flag_witness :
    (checkSpec exampleEngine exampleMethods [sumOk, sumBad] exampleRe false).err =
        some (.parameterValidation "sum-bad" (.lib "sum.param[1]: expected integer") none) ∧
      ((checkSpec exampleEngine exampleMethods [sumOk, sumBad] exampleRe true).err).map
          (CheckError.Error exampleEngine) =
        some ("unable to validate parameter in sum-bad: sum.param[1]: expected integer" ++
          "\nURL: http://localhost:5173/#schema=%24schema%3Dhttp%3A%2F%2Fjson-schema.org" ++
          "%2Fdraft-07%2Fschema+type%3Dinteger&data=%22two%22") :=
  ⟨(checkSpec_debug_flag exampleEngine exampleMethods [sumOk, sumBad] exampleRe).2.1.trans
    (by rfl), by rfl⟩

/-- C11: with debug URLs enabled, the URL carried by the error of a failing
parameter or result is exactly "http://localhost:5173/#schema=" followed by
the query escape, applied once, of the schema printed by MarshalIndent with
an empty line start and four blanks of indentation (empty when that fails),
then "&data=" and the query escape, applied once, of the raw value as it is.
The schema printed is the schema object as `validate` left it. The
construction is the same for a failing parameter and a failing result. -/
theorem checkSpec_debug_url (eng : Engine B V C E) (methods : Methods B)
    (pre : List roundTrip) (rt : roundTrip) (suf : List roundTrip) (re : Regexp)
    (method : methodSchema B)
    (hpre : ∀ r ∈ pre, (checkSpec eng methods [r] re true).err = none)
    (hm : methods rt.method = some method)
    (hname : stringsContains rt.name "invalid" = false) :
    (∀ (i : Nat) (v : String) (cd : ParamSchema B) (err : GoError E),
      rt.params.length ≤ method.params.length →
      rt.params[i]? = some v → method.params[i]? = some cd →
      (∀ (k : Nat) (w : String) (c : ParamSchema B), k < i → rt.params[k]? = some w →
        method.params[k]? = some c →
        (validate eng c.schema w (rt.method ++ ".param[" ++ toString k ++ "]")).2 = none) →
      (validate eng cd.schema v (rt.method ++ ".param[" ++ toString i ++ "]")).2 = some err →
      (checkSpec eng methods (pre ++ rt :: suf) re true).err =
        some (.parameterValidation rt.name err
          (some ("http://localhost:5173/#schema=" ++
            eng.QueryEscape ((eng.MarshalIndent
              (validate eng cd.schema v (rt.method ++ ".param[" ++ toString i ++ "]")).1
              "" "    ").getD "") ++
            "&data=" ++ eng.QueryEscape v)))) ∧
      (∀ (err : GoError E), ParamsPass eng method rt →
        ¬ (rt.response.Result = none ∧ rt.response.Error ≠ none) →
        (validate eng method.result.schema (rt.response.Result.getD "")
          (rt.method ++ ".result")).2 = some err →
        (checkSpec eng methods (pre ++ rt :: suf) re true).err =
          some (.resultValidation rt.name err
            (some ("http://localhost:5173/#schema=" ++
              eng.QueryEscape ((eng.MarshalIndent
                (validate eng method.result.schema (rt.response.Result.getD "")
                  (rt.method ++ ".result")).1 "" "    ").getD "") ++
              "&data=" ++ eng.QueryEscape (rt.response.Result.getD ""))))) := by
  refine ⟨?_, ?_⟩
  · intro i v cd err hlen hv hcd hlow hfail
    have hp := paramLoop_snd_fail_at eng rt true method.params i v cd err hv hcd hlow hfail
    rw [checkSpec_err_at eng methods pre rt suf re true _ hpre
      (single_err_param eng re true hm hname hlen hp), validate_fst]
    rfl
  · intro err hpass hresp hfail
    have hs := single_err_result eng re true hm hname hpass hresp
    rw [hfail] at hs
    rw [checkSpec_err_at eng methods pre rt suf re true _ hpre hs, validate_fst]
    rfl

/-- Scenario B and a failing result with the flag: each URL holds the schema
text and the raw value, escaped once (a double quote is %22, not %2522). -/
theorem checkSpec_debug_url_witness :
    (checkSpec exampleEngine exampleMethods ([sumOk] ++ sumBad :: [sumOk]) exampleRe true).err =
        some (.parameterValidation "sum-bad" (.lib "sum.param[1]: expected integer")
          (some ("http://localhost:5173/#schema=%24schema%3Dhttp%3A%2F%2Fjson-schema.org" ++
            "%2Fdraft-07%2Fschema+type%3Dinteger&data=%22two%22"))) ∧
      (checkSpec exampleEngine exampleMethods ([sumOk] ++ sumBadResult :: [sumOk]) exampleRe
          true).err =
        some (.resultValidation "sum-bad-result" (.lib "sum.result: expected integer")
          (some ("http://localhost:5173/#schema=%24schema%3Dhttp%3A%2F%2Fjson-schema.org" ++
            "%2Fdraft-07%2Fschema+type%3Dinteger&data=true"))) ∧
      exampleEngine.QueryEscape (exampleEngine.QueryEscape "\"two\"") = "%2522two%2522" := by
  have hpre : ∀ r ∈ [sumOk],
      (checkSpec exampleEngine exampleMethods [r] exampleRe true).err = none := by
    intro r hr; rw [List.mem_singleton] at hr; rw [hr]; rfl
  have h1 := (checkSpec_debug_url exampleEngine exampleMethods [sumOk] sumBad [sumOk]
    exampleRe sumMethod hpre (by rfl) (by decide)).1 1 "\"two\"" ⟨schemaOf .integer, true⟩
    (.lib "sum.param[1]: expected integer") (by decide) (by rfl) (by rfl)
    (by
      intro k w c hk hw hc
      match k with
      | 0 =>
        simp only [sumBad, sumMethod, List.getElem?_cons_zero, Option.some.injEq] at hw hc
        subst hw; subst hc; rfl
      | n + 1 => omega)
    (by rfl)
  exact ⟨h1.trans (by rfl), by rfl, by rfl⟩

/-- C12, as stated, fails: the method `sum` is loaded with no dialect marker
on its schemas, and after the run of scenario A its parameter and result
schemas carry the draft as their dialect marker. -/
theorem registry_read_only_counterexample :
    (exampleMethods "sum").map
        (fun m => (m.params.map (fun cd => cd.schema.Schema), m.result.schema.Schema)) =
        some ([none, none], none) ∧
      ((checkSpec exampleEngine exampleMethods [sumOk] exampleRe false).methods "sum").map
        (fun m => (m.params.map (fun cd => cd.schema.Schema), m.result.schema.Schema)) =
        some ([some "http://json-schema.org/draft-07/schema",
          some "http://json-schema.org/draft-07/schema"],
          some "http://json-schema.org/draft-07/schema") := by
  decide

/-- C12, amended: after `checkSpec` returns, with or without an error, the
registry has the same keys, and every method has its name, its number of
parameters, the required flag of each parameter and the body of each
parameter schema and of the result schema as before the call; the dialect
marker of each schema is as before the call or is the draft. -/
theorem checkSpec_registry_kept (eng : Engine B V C E) (methods : Methods B)
    (rts : List roundTrip) (re : Regexp) (generateUrls : Bool) :
    (∀ k, methods k = none → (checkSpec eng methods rts re generateUrls).methods k = none) ∧
      ∀ k m, methods k = some m →
        ∃ m1, (checkSpec eng methods rts re generateUrls).methods k = some m1 ∧
          m1.name = m.name ∧ m1.params.length = m.params.length ∧
          (∀ (i : Nat) (cd cd1 : ParamSchema B), m.params[i]? = some cd →
            m1.params[i]? = some cd1 →
            cd1.required = cd.required ∧ cd1.schema.body = cd.schema.body ∧
              (cd1.schema.Schema = cd.schema.Schema ∨ cd1.schema.Schema = some draft)) ∧
          m1.result.schema.body = m.result.schema.body ∧
          (m1.result.schema.Schema = m.result.schema.Schema ∨
            m1.result.schema.Schema = some draft) := by
  have hkept := checkSpec_methods_kept eng methods rts re generateUrls
  refine ⟨?_, ?_⟩
  · intro k hk
    rcases hkept k with ⟨_, h1⟩ | ⟨m, m1, h0, _, _⟩
    · exact h1
    · rw [hk] at h0; simp at h0
  · intro k m hk
    rcases hkept k with ⟨h0, _⟩ | ⟨m0, m1, h0, h1, hname, hparams, hres⟩
    · rw [hk] at h0; simp at h0
    · rw [hk] at h0
      simp only [Option.some.injEq] at h0
      subst h0
      refine ⟨m1, h1, hname, hparams.length_eq.symm, ?_, schemaKept_fields hres⟩
      intro i cd cd1 hcd hcd1
      have hp := paramsKept_getElem hparams i cd cd1 hcd hcd1
      exact ⟨hp.1, schemaKept_fields hp.2⟩

/-- After the run of scenario A the method `sum` is in the registry under its
name, with its two parameters. -/
theorem checkSpec_registry_kept_witness :
    ∃ m1, (checkSpec exampleEngine exampleMethods [sumOk] exampleRe false).methods "sum" =
        some m1 ∧ m1.name = "sum" ∧ m1.params.length = 2 ∧
      m1.result.schema.body = JType.integer := by
  obtain ⟨m1, h1, hname, hlen, _, hbody, _⟩ :=
    (checkSpec_registry_kept exampleEngine exampleMethods [sumOk] exampleRe false).2
      "sum" sumMethod (by rfl)
  exact ⟨m1, h1, hname, hlen, hbody⟩

/-- C13: `validate` forces the dialect whatever marker the schema carried.
After the call the schema object has the draft as its `$schema` member and
its body as before; `json.Marshal` is consulted only at documents whose
`$schema` member is the draft (changing it elsewhere changes nothing); and
two schemas with the same body, whatever their markers, give the same outcome
for every raw value and context. -/
theorem validate_forces_dialect (eng : Engine B V C E) (s : JSONSchemaObject B)
    (val url : String) :
    (validate eng s val url).1.Schema = some "http://json-schema.org/draft-07/schema" ∧
      (validate eng s val url).1.body = s.body ∧
      (∀ marshal1 : JSONSchemaObject B → Option String,
        (∀ doc, doc.Schema = some "http://json-schema.org/draft-07/schema" →
          marshal1 doc = eng.Marshal doc) →
        validate { eng with Marshal := marshal1 } s val url = validate eng s val url) ∧
      (∀ t : JSONSchemaObject B, t.body = s.body →
        validate eng t val url = validate eng s val url) := by
  refine ⟨?_, ?_, ?_, ?_⟩
  · rw [validate_fst]; rfl
  · rw [validate_fst]; rfl
  · intro marshal1 h
    have hm : marshal1 { s with Schema := some draft } =
        eng.Marshal { s with Schema := some draft } := h _ rfl
    unfold validate
    simp only [hm]
  · intro t ht
    have hst : ({ t with Schema := some draft } : JSONSchemaObject B) =
        { s with Schema := some draft } := by
      cases t; cases s
      simp only at ht
      simp [ht]
    unfold validate
    simp only [hst]

/-- An integer schema marked with another dialect validates as the one
without a marker, and the document the compiler receives carries the
draft. -/
theorem validate_forces_dialect_witness :
    validate exampleEngine draft04Integer "1" "sum.param[0]" =
        validate exampleEngine (schemaOf .integer) "1" "sum.param[0]" ∧
      (validate echoEngine draft04Integer "1" "sum.param[0]").2 =
        some (.lib "$schema=http://json-schema.org/draft-07/schema type=integer") :=
  ⟨(validate_forces_dialect exampleEngine (schemaOf .integer) "1" "sum.param[0]").2.2.2
    draft04Integer rfl, by rfl⟩

/-- C14: a raw value that fails to decode is treated by `validate` as the raw
value null: with a decoder that fails on `val` and decodes null to the nil
value, `validate` returns on `val` exactly what it returns on null, no decode
error is reported, and when the schema marshals and compiles the value handed
to the compiled schema is the nil value. -/
theorem validate_decode_failure (eng : Engine B V C E) (s : JSONSchemaObject B)
    (val url : String) (hbad : eng.Unmarshal val = none)
    (hnull : eng.Unmarshal "null" = some eng.nil) :
    validate eng s val url = validate eng s "null" url ∧
      ∀ b c, eng.Marshal { s with Schema := some draft } = some b →
        eng.CompileString url b = .ok c →
        (validate eng s val url).2 = (eng.Validate c eng.nil).map GoError.lib := by
  refine ⟨?_, ?_⟩
  · unfold validate
    simp only [hbad, hnull, Option.getD_none, Option.getD_some]
  · intro b c hb hc
    unfold validate
    simp only [hb, hc, hbad, Option.getD_none]
    cases eng.Validate c eng.nil <;> rfl

/-- A raw value that is no JSON is validated as null: the string schema
rejects it with the error it gives for null, and no decode error shows. -/
theorem validate_decode_failure_witness :
    exampleEngine.Unmarshal "[oops" = none ∧
      validate exampleEngine (schemaOf .string) "[oops" "greet.param[0]" =
        validate exampleEngine (schemaOf .string) "null" "greet.param[0]" ∧
      (validate exampleEngine (schemaOf .string) "[oops" "greet.param[0]").2 =
        some (.lib "greet.param[0]: expected string") :=
  ⟨by rfl,
    (validate_decode_failure exampleEngine (schemaOf .string) "[oops" "greet.param[0]"
      (by rfl) (by rfl)).1, by rfl⟩

/-- C15: within one round trip (not skipped, method resolved, not too many
values) the first failure wins. The error is `e` exactly when either some
declared parameter index `i` fails with `e` (a validation failure or a
missing required parameter) while every index below `i` passes, or every
declared parameter index passes, the response is not an error alone, and the
validation of the result fails with `e`. -/
theorem checkSpec_first_failure (eng : Engine B V C E) (methods : Methods B)
    (rt : roundTrip) (re : Regexp) (generateUrls : Bool) (method : methodSchema B)
    (e : CheckError E)
    (hm : methods rt.method = some method)
    (hname : stringsContains rt.name "invalid" = false)
    (hlen : rt.params.length ≤ method.params.length) :
    (checkSpec eng methods [rt] re generateUrls).err = some e ↔
      (∃ i cd, method.params[i]? = some cd ∧
        (∀ (k : Nat) (c : ParamSchema B), k < i → method.params[k]? = some c →
          IndexPasses eng rt k c) ∧
        IndexFails eng rt generateUrls i cd e) ∨
      ((∀ (k : Nat) (c : ParamSchema B), method.params[k]? = some c →
          IndexPasses eng rt k c) ∧
        ¬ (rt.response.Result = none ∧ rt.response.Error ≠ none) ∧
        ∃ err, (validate eng method.result.schema (rt.response.Result.getD "")
            (rt.method ++ ".result")).2 = some err ∧
          e = .resultValidation rt.name err
            (if generateUrls then
              some (urlStr eng
                (validate eng method.result.schema (rt.response.Result.getD "")
                  (rt.method ++ ".result")).1 (rt.response.Result.getD ""))
            else none)) := by
  have hsome := paramLoop_snd_some_iff eng rt generateUrls 0 method.params e
  simp only [Nat.zero_add] at hsome
  have hnone := paramLoop_snd_none_iff_index eng rt generateUrls method.params
  cases hp : (paramLoop eng rt generateUrls 0 method.params).2 with
  | some e1 =>
    rw [single_err_param eng re generateUrls hm hname hlen hp]
    rw [hp] at hsome hnone
    constructor
    · intro h; exact Or.inl (hsome.mp h)
    · rintro (h | ⟨hall, -⟩)
      · exact hsome.mpr h
      · have := hnone.mpr hall
        simp at this
  | none =>
    rw [hp] at hsome
    have hpass : ParamsPass eng method rt :=
      (paramsPass_iff eng method rt generateUrls).mpr ⟨hlen, hp⟩
    have hall := hnone.mp hp
    by_cases hresp : rt.response.Result = none ∧ rt.response.Error ≠ none
    · have hskip : (rt.response.Result.isNone && rt.response.Error.isSome) = true := by
        obtain ⟨hR, hE⟩ := hresp
        rw [hR]
        cases hE1 : rt.response.Error with
        | none => exact absurd hE1 hE
        | some x => rfl
      have hl : ¬ method.params.length < rt.params.length := by omega
      rw [checkSpec_single_err eng re generateUrls hm, hname, hp, hskip]
      simp only [Bool.false_eq_true, if_false, if_neg hl, if_true]
      constructor
      · intro h; simp at h
      · rintro (h | ⟨-, h, -⟩)
        · have := hsome.mpr h
          simp at this
        · exact absurd hresp h
    · rw [single_err_result eng re generateUrls hm hname hpass hresp, validate_fst]
      constructor
      · intro h
        cases hv : (validate eng method.result.schema (rt.response.Result.getD "")
            (rt.method ++ ".result")).2 with
        | none => rw [hv] at h; simp at h
        | some err =>
          rw [hv] at h
          simp only [Option.map_some', Option.some.injEq] at h
          exact Or.inr ⟨hall, hresp, err, rfl, h.symm⟩
      · rintro (h | ⟨-, -, err, hv, he⟩)
        · have := hsome.mpr h
          simp at this
        · rw [hv, he]; rfl

/-- A round trip of `sum` whose value at index 0 violates its schema, which
lacks the required parameter at index 1 and whose result violates the result
schema, fails with the parameter validation error of index 0. -/
theorem checkSpec_first_failure_witness :
    (validate exampleEngine (schemaOf .integer) "true" "sum.result").2 ≠ none ∧
      (checkSpec exampleEngine exampleMethods [sumWorst] exampleRe false).err =
        some (.parameterValidation "sum-worst" (.lib "sum.param[0]: expected integer") none) :=
  ⟨by decide,
    (checkSpec_first_failure exampleEngine exampleMethods sumWorst exampleRe false sumMethod
      _ (by rfl) (by decide) (by decide)).mpr
      (Or.inl ⟨0, ⟨schemaOf .integer, true⟩, by rfl, fun k c hk _ => by omega,
        Or.inr ⟨"\"x\"", .lib "sum.param[0]: expected integer", by rfl, by rfl, by rfl⟩⟩)⟩

/-- C16, as stated, fails: with a codec that cannot marshal a string schema,
the round trip `case` of `mix` fails at parameter index 2 and the round trip
`case` of `greet` fails at parameter index 0, and `checkSpec` returns the
same message for both, so the method and the index cannot be read off
it. -/
theorem parameter_error_message_counterexample :
    (validate pickyEngine (schemaOf .integer) "1" "mix.param[0]").2 = none ∧
      (validate pickyEngine (schemaOf .boolean) "true" "mix.param[1]").2 = none ∧
      (validate pickyEngine (schemaOf .string) "\"s\"" "mix.param[2]").2 =
        some (.errorString "unable to marshal schema to json") ∧
      (validate pickyEngine (schemaOf .string) "\"hi\"" "greet.param[0]").2 =
        some (.errorString "unable to marshal schema to json") ∧
      ((checkSpec pickyEngine exampleMethods [caseMix] exampleRe false).err).map
          (CheckError.Error pickyEngine) =
        some "unable to validate parameter in case: unable to marshal schema to json" ∧
      ((checkSpec pickyEngine exampleMethods [caseGreet] exampleRe false).err).map
          (CheckError.Error pickyEngine) =
        some "unable to validate parameter in case: unable to marshal schema to json" := by
  decide

/-- C16, amended: for a parameter validation failure at index `i` the message
of the error is "unable to validate parameter in ", the round-trip name,
": " and the text of the error of the validator (then "\nURL: " and the debug
URL with the flag). The round-trip name stands in the message; the context
"method.param[i]" stands in the message whenever it stands in the text of
the error of the validator. -/
theorem checkSpec_parameter_message (eng : Engine B V C E) (methods : Methods B)
    (pre : List roundTrip) (rt : roundTrip) (suf : List roundTrip) (re : Regexp)
    (generateUrls : Bool) (method : methodSchema B) (i : Nat) (v : String)
    (cd : ParamSchema B) (err : GoError E)
    (hpre : ∀ r ∈ pre, (checkSpec eng methods [r] re generateUrls).err = none)
    (hm : methods rt.method = some method)
    (hname : stringsContains rt.name "invalid" = false)
    (hlen : rt.params.length ≤ method.params.length)
    (hv : rt.params[i]? = some v) (hcd : method.params[i]? = some cd)
    (hlow : ∀ (k : Nat) (w : String) (c : ParamSchema B), k < i → rt.params[k]? = some w →
      method.params[k]? = some c →
      (validate eng c.schema w (rt.method ++ ".param[" ++ toString k ++ "]")).2 = none)
    (hfail : (validate eng cd.schema v (rt.method ++ ".param[" ++ toString i ++ "]")).2 =
      some err) :
    ∃ e, (checkSpec eng methods (pre ++ rt :: suf) re generateUrls).err = some e ∧
      e.Error eng =
        "unable to validate parameter in " ++ rt.name ++ ": " ++ err.Error eng ++
          (if generateUrls then
            "\nURL: " ++ urlStr eng
              (validate eng cd.schema v (rt.method ++ ".param[" ++ toString i ++ "]")).1 v
          else "") ∧
      rt.name.data <:+: (e.Error eng).data ∧
      ((rt.method ++ ".param[" ++ toString i ++ "]").data <:+: (err.Error eng).data →
        (rt.method ++ ".param[" ++ toString i ++ "]").data <:+: (e.Error eng).data) := by
  have hp := paramLoop_snd_fail_at eng rt generateUrls method.params i v cd err hv hcd hlow
    hfail
  have hrun := checkSpec_err_at eng methods pre rt suf re generateUrls _ hpre
    (single_err_param eng re generateUrls hm hname hlen hp)
  refine ⟨_, hrun, ?_, ?_, ?_⟩
  · rw [validate_fst]
    cases generateUrls
    · simp only [Bool.false_eq_true, if_false, CheckError.Error, String.append_empty]
    · simp only [if_true, CheckError.Error, String.append_assoc]
  · cases generateUrls
    · simp only [Bool.false_eq_true, if_false, CheckError.Error, String.data_append]
      exact ⟨"unable to validate parameter in ".data, ": ".data ++ (err.Error eng).data,
        by simp [List.append_assoc]⟩
    · simp only [if_true, CheckError.Error, String.data_append]
      exact ⟨"unable to validate parameter in ".data,
        ": ".data ++ (err.Error eng).data ++ "\nURL: ".data ++
          (urlStr eng (forceDraft cd.schema) v).data,
        by simp [List.append_assoc]⟩
  · rintro ⟨a, b, hab⟩
    cases generateUrls
    · simp only [Bool.false_eq_true, if_false, CheckError.Error, String.data_append]
      exact ⟨"unable to validate parameter in ".data ++ rt.name.data ++ ": ".data ++ a, b,
        by rw [← hab]; simp [List.append_assoc]⟩
    · simp only [if_true, CheckError.Error, String.data_append]
      exact ⟨"unable to validate parameter in ".data ++ rt.name.data ++ ": ".data ++ a,
        b ++ "\nURL: ".data ++ (urlStr eng (forceDraft cd.schema) v).data,
        by rw [← hab]; simp [List.append_assoc]⟩

/-- Scenario B: the message names the round trip and gives the text of the
error of the validator, which here holds the context. -/
theorem checkSpec_parameter_message_witness :
    ∃ e, (checkSpec exampleEngine exampleMethods ([sumOk] ++ sumBad :: [sumOk]) exampleRe
        false).err = some e ∧
      e.Error exampleEngine =
        "unable to validate parameter in sum-bad: sum.param[1]: expected integer" := by
  obtain ⟨e, he, hmsg, -, -⟩ := checkSpec_parameter_message exampleEngine exampleMethods
    [sumOk] sumBad [sumOk] exampleRe false sumMethod 1 "\"two\"" ⟨schemaOf .integer, true⟩
    (.lib "sum.param[1]: expected integer")
    (by intro r hr; rw [List.mem_singleton] at hr; rw [hr]; rfl) (by rfl) (by decide)
    (by decide) (by rfl) (by rfl)
    (by
      intro k w c hk hw hc
      match k with
      | 0 =>
        simp only [sumBad, sumMethod, List.getElem?_cons_zero, Option.some.injEq] at hw hc
        subst hw; subst hc; rfl
      | n + 1 => omega)
    (by rfl)
  exact ⟨e, he, hmsg.trans (by rfl)⟩

/-- C17: result validation is skipped only for a response that is an error
alone. For a round trip that is not skipped and whose parameters all pass:
when the result is present, with or without an error, the error of the
round trip is that of validating the result against the result schema; and
when both the result and the error are absent, the absent result is
validated all the same and, with a decoder that fails on the empty input and
decodes null to the nil value, as the value null, so that the round trip
passes exactly when the result schema accepts null. -/
theorem checkSpec_result_validated (eng : Engine B V C E) (methods : Methods B)
    (rt : roundTrip) (re : Regexp) (generateUrls : Bool) (method : methodSchema B)
    (hm : methods rt.method = some method)
    (hname : stringsContains rt.name "invalid" = false)
    (hpass : ParamsPass eng method rt) :
    (∀ r, rt.response.Result = some r →
      (checkSpec eng methods [rt] re generateUrls).err =
        ((validate eng method.result.schema r (rt.method ++ ".result")).2).map
          (fun err => .resultValidation rt.name err
            (if generateUrls then
              some (urlStr eng
                (validate eng method.result.schema r (rt.method ++ ".result")).1 r)
            else none))) ∧
      (rt.response.Result = none → rt.response.Error = none →
        eng.Unmarshal "" = none → eng.Unmarshal "null" = some eng.nil →
        (checkSpec eng methods [rt] re generateUrls).err =
            ((validate eng method.result.schema "null" (rt.method ++ ".result")).2).map
              (fun err => .resultValidation rt.name err
                (if generateUrls then
                  some (urlStr eng
                    (validate eng method.result.schema "null" (rt.method ++ ".result")).1 "")
                else none)) ∧
          ((checkSpec eng methods [rt] re generateUrls).err = none ↔
            (validate eng method.result.schema "null" (rt.method ++ ".result")).2 = none)) := by
  refine ⟨?_, ?_⟩
  · intro r hr
    have hresp : ¬ (rt.response.Result = none ∧ rt.response.Error ≠ none) := by
      rw [hr]; simp
    rw [single_err_result eng re generateUrls hm hname hpass hresp, hr, validate_fst]
    rfl
  · intro hR hE hempty hnull
    have hresp : ¬ (rt.response.Result = none ∧ rt.response.Error ≠ none) := by
      rw [hE]; simp
    have hval : validate eng method.result.schema "" (rt.method ++ ".result") =
        validate eng method.result.schema "null" (rt.method ++ ".result") := by
      unfold validate
      simp only [hempty, hnull, Option.getD_none, Option.getD_some]
    have herr := single_err_result eng re generateUrls hm hname hpass hresp
    rw [hR] at herr
    simp only [Option.getD_none] at herr
    rw [hval] at herr
    refine ⟨?_, ?_⟩
    · rw [herr, validate_fst]
    · rw [herr]
      cases (validate eng method.result.schema "null" (rt.method ++ ".result")).2 <;> simp

/-- A round trip of `sum` with both a result and an error has its result
validated, and one with neither fails since the integer schema rejects
null. -/
theorem checkSpec_result_validated_witness :
    (checkSpec exampleEngine exampleMethods [sumBoth] exampleRe false).err =
        some (.resultValidation "sum-both" (.lib "sum.result: expected integer") none) ∧
      (validate exampleEngine (schemaOf .integer) "null" "sum.result").2 =
        some (.lib "sum.result: expected integer") ∧
      (checkSpec exampleEngine exampleMethods [sumSilent] exampleRe false).err =
        some (.resultValidation "sum-silent" (.lib "sum.result: expected integer") none) := by
  have hpass : ∀ rt : roundTrip, rt.method = "sum" → rt.params = ["1", "2"] →
      ParamsPass exampleEngine sumMethod rt := by
    intro rt hmeth hpar
    refine ⟨by rw [hpar]; decide, ?_, ?_⟩
    · intro i v cd hv hcd
      rw [hpar] at hv
      rw [hmeth]
      match i with
      | 0 =>
        simp only [sumMethod, List.getElem?_cons_zero, Option.some.injEq] at hv hcd
        subst hv; subst hcd; rfl
      | 1 =>
        simp only [sumMethod, List.getElem?_cons_succ, List.getElem?_cons_zero,
          Option.some.injEq] at hv hcd
        subst hv; subst hcd; rfl
      | n + 2 => simp at hv
    · intro i cd hi hcd
      rw [hpar] at hi
      match i with
      | 0 => simp at hi
      | 1 => simp at hi
      | n + 2 => simp [sumMethod] at hcd
  have h1 := (checkSpec_result_validated exampleEngine exampleMethods sumBoth exampleRe false
    sumMethod (by rfl) (by decide) (hpass sumBoth rfl rfl)).1 "true" (by rfl)
  have h2 := ((checkSpec_result_validated exampleEngine exampleMethods sumSilent exampleRe
    false sumMethod (by rfl) (by decide) (hpass sumSilent rfl rfl)).2 (by rfl) (by rfl)
    (by rfl) (by rfl)).1
  exact ⟨h1.trans (by rfl), by rfl, h2.trans (by rfl)⟩

/-- C18: the schema in a debug URL is the schema after the dialect has been
overwritten. With debug URLs enabled, the URL of a failing parameter or
result is built from the pretty-printed form of the schema of the registry
with its `$schema` member set to the draft, whatever marker that schema
carried in the registry. -/
theorem checkSpec_debug_url_dialect (eng : Engine B V C E) (methods : Methods B)
    (pre : List roundTrip) (rt : roundTrip) (suf : List roundTrip) (re : Regexp)
    (method : methodSchema B)
    (hpre : ∀ r ∈ pre, (checkSpec eng methods [r] re true).err = none)
    (hm : methods rt.method = some method)
    (hname : stringsContains rt.name "invalid" = false) :
    (∀ (i : Nat) (v : String) (cd : ParamSchema B) (err : GoError E),
      rt.params.length ≤ method.params.length →
      rt.params[i]? = some v → method.params[i]? = some cd →
      (∀ (k : Nat) (w : String) (c : ParamSchema B), k < i → rt.params[k]? = some w →
        method.params[k]? = some c →
        (validate eng c.schema w (rt.method ++ ".param[" ++ toString k ++ "]")).2 = none) →
      (validate eng cd.schema v (rt.method ++ ".param[" ++ toString i ++ "]")).2 = some err →
      (checkSpec eng methods (pre ++ rt :: suf) re true).err =
        some (.parameterValidation rt.name err
          (some ("http://localhost:5173/#schema=" ++
            singleEscape eng ((eng.MarshalIndent
              { cd.schema with Schema := some "http://json-schema.org/draft-07/schema" }
              "" "    ").getD "") ++
            "&data=" ++ singleEscape eng v)))) ∧
      (∀ (err : GoError E), ParamsPass eng method rt →
        ¬ (rt.response.Result = none ∧ rt.response.Error ≠ none) →
        (validate eng method.result.schema (rt.response.Result.getD "")
          (rt.method ++ ".result")).2 = some err →
        (checkSpec eng methods (pre ++ rt :: suf) re true).err =
          some (.resultValidation rt.name err
            (some ("http://localhost:5173/#schema=" ++
              singleEscape eng ((eng.MarshalIndent
                { method.result.schema with
                  Schema := some "http://json-schema.org/draft-07/schema" }
                "" "    ").getD "") ++
              "&data=" ++ singleEscape eng (rt.response.Result.getD ""))))) := by
  refine ⟨?_, ?_⟩
  · intro i v cd err hlen hv hcd hlow hfail
    have hp := paramLoop_snd_fail_at eng rt true method.params i v cd err hv hcd hlow hfail
    rw [checkSpec_err_at eng methods pre rt suf re true _ hpre
      (single_err_param eng re true hm hname hlen hp)]
    rfl
  · intro err hpass hresp hfail
    have hs := single_err_result eng re true hm hname hpass hresp
    rw [hfail] at hs
    rw [checkSpec_err_at eng methods pre rt suf re true _ hpre hs]
    rfl

/-- A method whose schemas are marked with another dialect: the URL of its
failing parameter holds the schema text with the draft as its marker. -/
theorem checkSpec_debug_url_dialect_witness :
    (oldMethods "old").map (fun m => m.params.map (fun cd => cd.schema.Schema)) =
        some [some "http://json-schema.org/draft-04/schema#"] ∧
      (checkSpec exampleEngine oldMethods [oldBad] exampleRe true).err =
        some (.parameterValidation "old-bad" (.lib "old.param[0]: expected integer")
          (some ("http://localhost:5173/#schema=%24schema%3Dhttp%3A%2F%2Fjson-schema.org" ++
            "%2Fdraft-07%2Fschema+type%3Dinteger&data=true"))) := by
  have h := (checkSpec_debug_url_dialect exampleEngine oldMethods [] oldBad [] exampleRe
    ⟨"old", [⟨draft04Integer, true⟩], ⟨draft04Integer⟩⟩
    (by intro r hr; simp at hr) (by rfl) (by decide)).1 0 "true" ⟨draft04Integer, true⟩
    (.lib "old.param[0]: expected integer") (by decide) (by rfl) (by rfl)
    (fun k w c hk _ _ => by omega) (by rfl)
  exact ⟨by decide, h.trans (by rfl)⟩

end Claims

end Speccheck
